import Mathlib

/-!
# Verification of the starsystem ECS store

A shallow embedding of the `starsystem` crate: a three-level in-memory
object store (aggregate roots (`Being`) → sub-object mirrors (`StarEntity`)
→ typed properties) whose authoritative data lives in sharded partitions
(`World`), together with the snapshot protocol (`ascend_being` /
`develop_being`).

Modelling conventions:
* `Uid` (a random 128-character string in the source, treated by the spec
  as an opaque unique-id service) is modelled as a natural number drawn
  from a counter threaded through the state; `Uid::new()` takes the
  current counter value and bumps it.
* Rust `BTreeMap` values are modelled as association lists with
  insert-or-replace; the `usize`-keyed component-table map (whose keys are
  exactly `0 .. variant_count`) is modelled positionally as a list of
  tables.
* Panics (`unwrap` on `None`/`Err`, assertion failure, unsigned-integer
  underflow under the default debug-profile overflow checks) are modelled
  as `none` / `Res.panic`; `Result::Err` returns are `Res.err`.
* The `EnumIndex` trait (its declaration is not part of the sources here;
  the crate documentation shows `fn index(&self) -> usize`) and strum's
  variant enumeration are modelled by `EnumInfo`: a variant count and a
  pure discriminant function.
-/

/-- Three-way result of a Rust call: a panic (`unwrap` failure, assertion,
overflow), a returned `Err`, or a returned `Ok`. -/
inductive Res (α : Type) where
  | panic : Res α
  | err : String → Res α
  | ok : α → Res α
deriving DecidableEq

/-- Model of `Uid`: identifiers are drawn from a counter, so freshness is
exact (the spec treats the identifier service as an opaque unique-id
source). -/
abbrev Uid := Nat

/-- Association-list lookup: first entry with the given key
(model of `BTreeMap::get`). -/
def lookupA {α : Type} (k : Uid) : List (Uid × α) → Option α
  | [] => none
  | (k', v) :: t => if k' = k then some v else lookupA k t

/-- Association-list insert-or-replace: replaces the first entry with the
given key, else appends (model of `BTreeMap::insert`). -/
def insertA {α : Type} (k : Uid) (v : α) : List (Uid × α) → List (Uid × α)
  | [] => [(k, v)]
  | (k', v') :: t => if k' = k then (k, v) :: t else (k', v') :: insertA k v t

/-- Association-list removal of every entry with the given key
(model of `BTreeMap::remove`; keys are unique in reachable states). -/
def eraseA {α : Type} (k : Uid) (l : List (Uid × α)) : List (Uid × α) :=
  l.filter (fun p => p.1 ≠ k)

/-- Modify the first entry with the given key in place
(model of mutation through `get_mut`/`find_any` on a unique key). -/
def modifyA {α : Type} (k : Uid) (f : α → α) : List (Uid × α) → List (Uid × α)
  | [] => []
  | (k', v) :: t => if k' = k then (k, f v) :: t else (k', v) :: modifyA k f t

/-- Modify the first element satisfying a predicate
(model of `iter_mut().find(..)` followed by mutation, or a mutating loop
with `break` on first match). -/
def modifyFirst {α : Type} (p : α → Bool) (f : α → α) : List α → List α
  | [] => []
  | a :: t => if p a then f a :: t else a :: modifyFirst p f t

/-- Variant metadata for the caller-supplied component enumeration `T`:
the number of declared variants (strum's `IntoEnumIterator`) and the pure
discriminant function (the `EnumIndex` trait). -/
structure EnumInfo (T : Type) where
  vc : Nat
  index : T → Nat

/-- `world::component::Component`: a stored property value with its
display name. -/
structure Component (T : Type) where
  name : String
  data : T
deriving DecidableEq

/-- `world::entity::Entity`: a registry record holding the ordered list of
(variant index, property id) locations and a display name. -/
structure Entity where
  location : List (Nat × Uid)
  name : String
deriving DecidableEq

/-- One property table: `CompMap<T> = BTreeMap<Uid, Component<T>>`. -/
abbrev CompMap (T : Type) := List (Uid × Component T)

/-- `world::World`: a partition owning an entity registry, a live count and
one property table per declared variant (modelled positionally: entry `i`
of `components` is the table of variant `i`). -/
structure World (T : Type) where
  id : Uid
  indexes : List Nat
  entitiesCount : Nat
  entities : List (Uid × Entity)
  components : List (CompMap T)
deriving DecidableEq

namespace World

/-- `World::new`: `vc` empty tables, empty registry, zero live count.
The fresh world id is supplied by the threaded counter. -/
def new (T : Type) (wid : Uid) (vc : Nat) : World T :=
  { id := wid
    indexes := List.range vc
    entitiesCount := 0
    entities := []
    components := List.replicate vc [] }

/-- `World::has_component`: scan every table for the key. -/
def has_component {T : Type} (w : World T) (c : Uid) : Bool :=
  w.components.any (fun tbl => (lookupA c tbl).isSome)

/-- `World::has_entity`. -/
def has_entity {T : Type} (w : World T) (e : Uid) : Bool :=
  (lookupA e w.entities).isSome

/-- `World::create_entity`: insert an empty-location record under a fresh
id and increment the live count. -/
def create_entity {T : Type} (w : World T) (fresh : Uid) (name : String) :
    World T × Uid :=
  ({ w with
      entities := insertA fresh { location := [], name := name } w.entities
      entitiesCount := w.entitiesCount + 1 },
    fresh)

/-- `World::set_entity`: insert-or-replace a record with an empty location
list at a caller-supplied id; the live count is not touched. -/
def set_entity {T : Type} (w : World T) (id : Uid) (name : String) :
    World T × Uid :=
  ({ w with entities := insertA id { location := [], name := name } w.entities },
    id)

/-- `World::add_component_to_entity`: insert `{name, value}` into the table
selected by the discriminant under a fresh id, then push the location pair
onto the entity's record. The entity lookup is unwrapped: a missing entity
or missing table is a panic (`none`), not an `Err`. -/
def add_component_to_entity {T : Type} (E : EnumInfo T) (w : World T)
    (fresh : Uid) (entity : Uid) (component : T) (component_name : String) :
    Option (World T × Uid) :=
  let i := E.index component
  match w.components.get? i with
  | none => none
  | some tbl =>
    let comps := w.components.set i
      (insertA fresh { name := component_name, data := component } tbl)
    match lookupA entity w.entities with
    | none => none
    | some _ =>
      some ({ w with
                components := comps
                entities := modifyA entity
                  (fun e => { e with location := e.location ++ [(i, fresh)] })
                  w.entities },
            fresh)

/-- `World::set_component_to_entity`: as `add_component_to_entity` but at a
caller-supplied property id; the location pair is appended regardless of
whether it is already present. -/
def set_component_to_entity {T : Type} (E : EnumInfo T) (w : World T)
    (entity : Uid) (component : T) (component_name : String)
    (component_id : Uid) : Option (World T × Uid) :=
  let i := E.index component
  match w.components.get? i with
  | none => none
  | some tbl =>
    let comps := w.components.set i
      (insertA component_id { name := component_name, data := component } tbl)
    match lookupA entity w.entities with
    | none => none
    | some _ =>
      some ({ w with
                components := comps
                entities := modifyA entity
                  (fun e => { e with location := e.location ++ [(i, component_id)] })
                  w.entities },
            component_id)

/-- First table index containing the key (the linear scan in ascending
index order used by `remove_component_from_entity` / `set_component`). -/
def findTable {T : Type} : List (CompMap T) → Uid → Option Nat
  | [], _ => none
  | tbl :: rest, c =>
    if (lookupA c tbl).isSome then some 0
    else (findTable rest c).map (· + 1)

/-- `World::remove_component_from_entity`: locate the table containing the
id by linear scan (defaulting to table 0 and a freshly generated uid as the
key to remove when not found — the source always calls `Uid::new()` here,
so the counter is consumed), remove the table entry, drop every matching
location pair from the entity (the entity lookup is unwrapped), and assert
that no pair with the scanned key remains. -/
def remove_component_from_entity {T : Type} (w : World T) (fresh : Uid)
    (entity : Uid) (component : Uid) : Option (World T) :=
  let scanned := findTable w.components component
  let i := scanned.getD 0
  let key := match scanned with
    | some _ => component
    | none => fresh
  match w.components.get? i with
  | none => none
  | some tbl =>
    let comps := w.components.set i (eraseA key tbl)
    match lookupA entity w.entities with
    | none => none
    | some _ =>
      let ents := modifyA entity
        (fun e => { e with location := e.location.filter (fun p => p.2 ≠ component) })
        w.entities
      match lookupA entity ents with
      | none => none
      | some e' =>
        if e'.location.any (fun p => p.2 = key) then none
        else some { w with components := comps, entities := ents }

/-- `World::set_component`: locate the owning table by scan (defaulting to
index 0), unwrap the table and the entry (a missing entry is a panic), and
replace the stored data in place. -/
def set_component {T : Type} (w : World T) (component : Uid) (data : T) :
    Option (World T) :=
  let i := (findTable w.components component).getD 0
  match w.components.get? i with
  | none => none
  | some tbl =>
    match lookupA component tbl with
    | none => none
    | some comp =>
      some { w with
               components := w.components.set i
                 (insertA component { comp with data := data } tbl) }

/-- Remove, for each location pair, the property id from its table
(the loop inside `World::remove_entity`); a missing table index is a
panic. -/
def removeLocs {T : Type} : List (Nat × Uid) → List (CompMap T) →
    Option (List (CompMap T))
  | [], comps => some comps
  | (i, c) :: rest, comps =>
    match comps.get? i with
    | none => none
    | some tbl => removeLocs rest (comps.set i (eraseA c tbl))

/-- `World::remove_entity`: `Err` if the entity is unknown; otherwise
remove every referenced property from its table, drop the registry record,
and decrement the live count — the decrement is unchecked in the source,
so a zero count is an unsigned-underflow panic. -/
def remove_entity {T : Type} (w : World T) (entity : Uid) : Res (World T) :=
  match lookupA entity w.entities with
  | none => Res.err "entity not found"
  | some ent =>
    match removeLocs ent.location w.components with
    | none => Res.panic
    | some comps =>
      if w.entitiesCount = 0 then Res.panic
      else Res.ok { w with
                      components := comps
                      entities := w.entities.filter (fun p => p.1 ≠ entity)
                      entitiesCount := w.entitiesCount - 1 }

/-- Resolve each location pair of the entity against its table (the loop
inside `World::get_entity_components`); both lookups are unwrapped. -/
def resolveLocs {T : Type} (comps : List (CompMap T)) :
    List (Nat × Uid) → Option (List (Uid × Component T))
  | [] => some []
  | (i, c) :: rest =>
    match comps.get? i with
    | none => none
    | some tbl =>
      match lookupA c tbl with
      | none => none
      | some comp => (resolveLocs comps rest).map (fun l => (c, comp) :: l)

/-- `World::get_entity_components`: unwrap the entity record, then resolve
its ordered location list. -/
def get_entity_components {T : Type} (w : World T) (entity : Uid) :
    Option (List (Uid × Component T)) :=
  match lookupA entity w.entities with
  | none => none
  | some ent => resolveLocs w.components ent.location

end World

/-- `starsystem::starentity::StarEntityLocation`: (owning world id,
referenced id). -/
structure StarEntityLocation where
  world : Uid
  entity : Uid
deriving DecidableEq

/-- `starsystem::starentity::StarEntityProperty`: a property mirror —
display name, property id, and location record. -/
structure StarEntityProperty where
  name : String
  id : Uid
  location : StarEntityLocation
deriving DecidableEq

/-- `starsystem::starentity::StarEntity`: a sub-object mirror — location,
the backing partition entity id, display name, ordered property mirrors. -/
structure StarEntity where
  location : StarEntityLocation
  id : Uid
  name : String
  properties : List StarEntityProperty
deriving DecidableEq

/-- `starsystem::being::Being`: an aggregate root. -/
structure Being where
  id : Uid
  entities : List StarEntity
  name : String
deriving DecidableEq

/-- `starsystem::ascend::AscendedComponent`: a property snapshot carrying
the typed payload verbatim. -/
structure AscendedComponent (T : Type) where
  name : String
  id : Uid
  data : T
deriving DecidableEq

/-- `starsystem::ascend::AscendedEntity`: a sub-object snapshot. -/
structure AscendedEntity (T : Type) where
  name : String
  id : Uid
  components : List (AscendedComponent T)
deriving DecidableEq

/-- `starsystem::ascend::AscendedBeing`: an aggregate-root snapshot. -/
structure AscendedBeing (T : Type) where
  name : String
  id : Uid
  entities : List (AscendedEntity T)
deriving DecidableEq

/-- `starsystem::StarSystem`: the root store — the partitions, the
aggregate roots, and the modelled identifier-service counter. -/
structure SS (T : Type) where
  worlds : List (Uid × World T)
  beings : List Being
  ctr : Nat
deriving DecidableEq

namespace SS

/-- `StarSystem::new`. -/
def new (T : Type) : SS T := { worlds := [], beings := [], ctr := 0 }

/-- `StarSystem::create_world`: insert a freshly built world keyed by its
fresh id. -/
def create_world {T : Type} (E : EnumInfo T) (s : SS T) : SS T × Uid :=
  let w := World.new T s.ctr E.vc
  ({ s with worlds := insertA s.ctr w s.worlds, ctr := s.ctr + 1 }, s.ctr)

/-- `StarSystem::conceive_being`: push a fresh root. -/
def conceive_being {T : Type} (s : SS T) (name : String) : SS T × Uid :=
  ({ s with
      beings := s.beings ++ [{ id := s.ctr, entities := [], name := name }]
      ctr := s.ctr + 1 },
    s.ctr)

/-- `StarSystem::set_being`: push a root with a caller-supplied id (the
source comment says an existing root with that id is overwritten, but the
code only pushes — nothing is removed or replaced). -/
def set_being {T : Type} (s : SS T) (id : Uid) (name : String) : SS T × Uid :=
  ({ s with beings := s.beings ++ [{ id := id, entities := [], name := name }] },
    id)

/-- First root with the given id (`iter().find`). -/
def findBeing {T : Type} (s : SS T) (id : Uid) : Option Being :=
  s.beings.find? (fun b => b.id == id)

/-- `StarSystem::get_being`. -/
def get_being {T : Type} (s : SS T) (id : Uid) : Res Being :=
  match findBeing s id with
  | some b => Res.ok b
  | none => Res.err "being does not exist"

/-- The per-mirror loop of `kill_being`: remove each mirror's entity from
its owning world; a missing world is silently skipped, but the
`remove_entity` result is unwrapped, so an `Err` (entity already gone) or
an inner panic aborts the process. -/
def killFold {T : Type} : List StarEntity → List (Uid × World T) →
    Option (List (Uid × World T))
  | [], ws => some ws
  | m :: rest, ws =>
    match lookupA m.location.world ws with
    | none => killFold rest ws
    | some w =>
      match World.remove_entity w m.id with
      | Res.ok w' => killFold rest (insertA m.location.world w' ws)
      | _ => none

/-- Index of the first root with the given id. -/
def findBeingIdx {T : Type} (s : SS T) (id : Uid) : Option Nat :=
  s.beings.findIdx? (fun b => b.id == id)

/-- `StarSystem::kill_being`: `Err` if the root id is unknown; otherwise
remove every referenced partition entity (unwrapping each removal) and
remove the root from the list. -/
def kill_being {T : Type} (s : SS T) (id : Uid) : Res (SS T) :=
  match findBeingIdx s id with
  | none => Res.err "being does not exist"
  | some i =>
    match s.beings.get? i with
    | none => Res.panic
    | some b =>
      match killFold b.entities s.worlds with
      | none => Res.panic
      | some ws => Res.ok { s with worlds := ws, beings := s.beings.eraseIdx i }

/-- `if s.worlds.is_empty() { create_world() }` — the lazy-partition
preamble of `constitute_being` / `develop_being`. -/
def ensureWorld {T : Type} (E : EnumInfo T) (s : SS T) : SS T :=
  if s.worlds.isEmpty then (create_world E s).1 else s

/-- The detach-on-name-collision phase of `constitute_being`: if the root
has a mirror with the attached name, remove its entity from its world
(unwrapped — `Err`/panic aborts; a missing world is skipped) and drop every
same-named mirror from the root. -/
def detachSameName {T : Type} (s : SS T) (being : Uid) (entity_name : String) :
    Option (SS T) :=
  match findBeing s being with
  | none => some s
  | some b =>
    let wsOpt : Option (List (Uid × World T)) :=
      match b.entities.find? (fun e => e.name == entity_name) with
      | none => some s.worlds
      | some e =>
        match lookupA e.location.world s.worlds with
        | none => some s.worlds
        | some w =>
          match World.remove_entity w e.id with
          | Res.ok w' => some (insertA e.location.world w' s.worlds)
          | _ => none
    wsOpt.map (fun ws =>
      { s with
          worlds := ws
          beings := modifyFirst (fun b' => b'.id == being)
            (fun b' => { b' with
              entities := b'.entities.filter (fun e => e.name ≠ entity_name) })
            s.beings })

/-- Append a mirror to the first root with the given id (the push loop of
`constitute_being` / `develop_being`). -/
def pushMirror (being : Uid) (m : StarEntity) (bs : List Being) : List Being :=
  modifyFirst (fun b => b.id == being)
    (fun b => { b with entities := b.entities ++ [m] }) bs

/-- `StarSystem::constitute_being`: ensure a world exists, detach any
same-named sub-object, pick a world by the random index (modelled as the
explicit `choice` argument, taken modulo the world count), create a fresh
entity there, and append a new empty mirror to the root. -/
def constitute_being {T : Type} (E : EnumInfo T) (s : SS T) (being : Uid)
    (entity_name : String) (choice : Nat) : Option (SS T × Uid) :=
  let s1 := ensureWorld E s
  match detachSameName s1 being entity_name with
  | none => none
  | some s2 =>
    match s2.worlds.get? (choice % s2.worlds.length) with
    | none => none
    | some (wid, w) =>
      let (w', ent) := World.create_entity w s2.ctr entity_name
      let mirror : StarEntity :=
        { location := { world := wid, entity := ent }
          id := ent
          name := entity_name
          properties := [] }
      some ({ s2 with
                worlds := insertA wid w' s2.worlds
                beings := pushMirror being mirror s2.beings
                ctr := s2.ctr + 1 },
            ent)

/-- `StarSystem::dissolve_entity`: remove the entity from its world
(unwrapped) and drop its mirror; missing root/mirror/world are silently
skipped. -/
def dissolve_entity {T : Type} (s : SS T) (being : Uid) (entity : Uid) :
    Option (SS T) :=
  match findBeing s being with
  | none => some s
  | some b =>
    let wsOpt : Option (List (Uid × World T)) :=
      match b.entities.find? (fun e => e.id == entity) with
      | none => some s.worlds
      | some e =>
        match lookupA e.location.world s.worlds with
        | none => some s.worlds
        | some w =>
          match World.remove_entity w e.id with
          | Res.ok w' => some (insertA e.location.world w' s.worlds)
          | _ => none
    wsOpt.map (fun ws =>
      { s with
          worlds := ws
          beings := modifyFirst (fun b' => b'.id == being)
            (fun b' => { b' with
              entities := b'.entities.filter (fun e => e.id ≠ entity) })
            s.beings })

/-- `StarSystem::add_property`: resolve root → mirror → world, delegate to
the partition's `add_component_to_entity` (unwrapped), then append a
matching property mirror (whose location's `entity` field is the property
id, as in the source) to the sub-object. An unresolved path returns the
`Err` of the source; a partition panic propagates. -/
def add_property {T : Type} (E : EnumInfo T) (s : SS T) (being : Uid)
    (entity : Uid) (property : T) (property_name : String) :
    Res (SS T × Uid) :=
  match findBeing s being with
  | none => Res.err "Could not add property to entity"
  | some b =>
    match b.entities.find? (fun e => e.id == entity) with
    | none => Res.err "Could not add property to entity"
    | some e =>
      match lookupA e.location.world s.worlds with
      | none => Res.err "Could not add property to entity"
      | some w =>
        match World.add_component_to_entity E w s.ctr entity property property_name with
        | none => Res.panic
        | some (w', pid) =>
          let prop : StarEntityProperty :=
            { name := property_name
              id := pid
              location := { world := e.location.world, entity := pid } }
          Res.ok
            ({ s with
                worlds := insertA e.location.world w' s.worlds
                beings := modifyFirst (fun b' => b'.id == being)
                  (fun b' => { b' with
                    entities := modifyFirst (fun m => m.id == entity)
                      (fun m => { m with properties := m.properties ++ [prop] })
                      b'.entities })
                  s.beings
                ctr := s.ctr + 1 },
              pid)

/-- `StarSystem::set_property`: resolve root → mirror → world, delegate to
`set_component_to_entity` (unwrapped), rename the first matching property
mirror in place, and unwrap the collected id — an unresolved path is a
panic (`id.unwrap()` on `None`), not an `Err`. -/
def set_property {T : Type} (E : EnumInfo T) (s : SS T) (being : Uid)
    (entity : Uid) (property : Uid) (value : T) (name : String) :
    Option (SS T × Uid) :=
  match findBeing s being with
  | none => none
  | some b =>
    match b.entities.find? (fun e => e.id == entity) with
    | none => none
    | some e =>
      match lookupA e.location.world s.worlds with
      | none => none
      | some w =>
        match World.set_component_to_entity E w entity value name property with
        | none => none
        | some (w', _) =>
          some ({ s with
                    worlds := insertA e.location.world w' s.worlds
                    beings := modifyFirst (fun b' => b'.id == being)
                      (fun b' => { b' with
                        entities := modifyFirst (fun m => m.id == entity)
                          (fun m => { m with
                            properties := modifyFirst (fun p => p.id == property)
                              (fun p => { p with name := name }) m.properties })
                          b'.entities })
                      s.beings },
                property)

/-- The root/mirror scan of `remove_property`: for each root, find the
first mirror holding the property id, delegate removal to its world
(unwrapped; a missing world is skipped), drop the matching mirrors from
that sub-object, and continue with the remaining roots. The partition
call consumes one fresh uid (its internal `Uid::new()`). -/
def removePropGo (p : Uid) {T : Type} : List Being → List (Uid × World T) →
    Nat → Option (List Being × List (Uid × World T) × Nat)
  | [], ws, c => some ([], ws, c)
  | b :: rest, ws, c =>
    match b.entities.find? (fun m => m.properties.any (fun q => q.id == p)) with
    | none =>
      (removePropGo p rest ws c).map (fun r => (b :: r.1, r.2))
    | some m =>
      let stepOpt : Option (List (Uid × World T) × Nat) :=
        match lookupA m.location.world ws with
        | none => some (ws, c)
        | some w =>
          match World.remove_component_from_entity w c m.id p with
          | none => none
          | some w' => some (insertA m.location.world w' ws, c + 1)
      match stepOpt with
      | none => none
      | some (ws1, c1) =>
        let b' : Being :=
          { b with
              entities := modifyFirst
                (fun m' => m'.properties.any (fun q => q.id == p))
                (fun m' => { m' with
                  properties := m'.properties.filter (fun q => q.id ≠ p) })
                b.entities }
        (removePropGo p rest ws1 c1).map (fun r => (b' :: r.1, r.2))

/-- `StarSystem::remove_property`: scan every root's mirrors for the
property id and remove each first match per root. -/
def remove_property {T : Type} (s : SS T) (p : Uid) : Option (SS T) :=
  match removePropGo p s.beings s.worlds s.ctr with
  | none => none
  | some (bs, ws, c) => some { s with worlds := ws, beings := bs, ctr := c }

/-- `StarSystem::set_property_by_id`: find the first world whose tables
contain the id and update the value in place (unwrapped); when no world
has the id the call is a silent success returning the same id. -/
def set_property_by_id {T : Type} (s : SS T) (property_id : Uid)
    (property_value : T) : Option (SS T × Uid) :=
  match s.worlds.find? (fun w => World.has_component w.2 property_id) with
  | none => some (s, property_id)
  | some (wid, w) =>
    match World.set_component w property_id property_value with
    | none => none
    | some w' => some ({ s with worlds := insertA wid w' s.worlds }, property_id)

/-- The empty mirror pushed for one rehydrated sub-object snapshot
(`StarEntity { location, id: ent, name, properties: vec![] }` in the
source, where `ent` is the snapshot's id). -/
def devMirror {T : Type} (wid : Uid) (e : AscendedEntity T) : StarEntity :=
  { location := { world := wid, entity := e.id }
    id := e.id
    name := e.name
    properties := [] }

/-- The property mirrors built from the snapshot components (ids and
names verbatim; the location references the rehydrated entity). -/
def devProps {T : Type} (wid : Uid) (e : AscendedEntity T) :
    List StarEntityProperty :=
  e.components.map (fun c =>
    { name := c.name
      id := c.id
      location := { world := wid, entity := e.id } })

/-- Rehydrate one sub-object snapshot into the chosen world (the inner
loop of `develop_being`): `set_entity` with the snapshot's original id and
name, push an empty mirror, and set the first matching mirror's property
list to mirrors of the snapshot components — no partition property write
happens (the delegation is commented out in the source). -/
def developEntityStep {T : Type} (being : Uid) (wid : Uid) (s : SS T)
    (e : AscendedEntity T) : Option (SS T) :=
  match lookupA wid s.worlds with
  | none => none
  | some w =>
    some { s with
             worlds := insertA wid (World.set_entity w e.id e.name).1 s.worlds
             beings := modifyFirst (fun b => b.id == being)
               (fun b => { b with
                 entities := modifyFirst (fun m => m.id == e.id)
                   (fun m => { m with properties := devProps wid e })
                   b.entities })
               (pushMirror being (devMirror wid e) s.beings) }

/-- Fold `developEntityStep` over the sub-object snapshots of one root
snapshot, collecting the rehydrated entity ids. -/
def developEntities {T : Type} (being : Uid) (wid : Uid) :
    List (AscendedEntity T) → SS T → Option (SS T × List Uid)
  | [], s => some (s, [])
  | e :: rest, s =>
    match developEntityStep being wid s e with
    | none => none
    | some s' =>
      (developEntities being wid rest s').map (fun r => (r.1, e.id :: r.2))

/-- One root snapshot of `develop_being`: pick a world by the random index
(the explicit choice, modulo the world count — the source panics when no
world exists, modelled by the `none` on an empty list), unwrap
`get_being`, and rehydrate each sub-object snapshot. -/
def developBeingStep {T : Type} (being : Uid) (s : SS T)
    (ab : AscendedBeing T) (choice : Nat) : Option (SS T × List Uid) :=
  match s.worlds.get? (choice % s.worlds.length) with
  | none => none
  | some (wid, _) =>
    match findBeing s being with
    | none => none
    | some _ => developEntities being wid ab.entities s

/-- Fold over the root snapshots with their world choices. -/
def developGo {T : Type} (being : Uid) :
    List (AscendedBeing T) → List Nat → SS T → Option (SS T × List Uid)
  | [], _, s => some (s, [])
  | ab :: rest, choices, s =>
    match developBeingStep being s ab (choices.headD 0) with
    | none => none
    | some (s', ids) =>
      (developGo being rest choices.tail s').map (fun r => (r.1, ids ++ r.2))

/-- `StarSystem::develop_being`: ensure a world exists, then rehydrate
every root snapshot in order. -/
def develop_being {T : Type} (E : EnumInfo T) (s : SS T) (being : Uid)
    (ascended_beings : List (AscendedBeing T)) (choices : List Nat) :
    Option (SS T × List Uid) :=
  developGo being ascended_beings choices (ensureWorld E s)

/-- Flatten one mirror (the inner loop of `ascend_being`): unwrap the
owning world and `get_entity_components`, then build the component
snapshots verbatim. -/
def ascendMirror {T : Type} (ws : List (Uid × World T)) (m : StarEntity) :
    Option (AscendedEntity T) :=
  match lookupA m.location.world ws with
  | none => none
  | some w =>
    match World.get_entity_components w m.id with
    | none => none
    | some comps =>
      some { name := m.name
             id := m.id
             components := comps.map (fun ic =>
               { id := ic.1, name := ic.2.name, data := ic.2.data }) }

/-- Flatten every root whose id matches (the outer loop of
`ascend_being`). -/
def ascendGo {T : Type} (ws : List (Uid × World T)) (being : Uid) :
    List Being → Option (List (AscendedBeing T))
  | [] => some []
  | b :: rest =>
    if b.id == being then
      match (b.entities.mapM (ascendMirror ws)) with
      | none => none
      | some ents =>
        (ascendGo ws being rest).map (fun l =>
          { name := b.name, id := b.id, entities := ents } :: l)
    else ascendGo ws being rest

/-- `StarSystem::ascend_being`: flatten the root's live mirrors plus the
authoritative values into snapshots. -/
def ascend_being {T : Type} (s : SS T) (being : Uid) :
    Option (List (AscendedBeing T)) :=
  ascendGo s.worlds being s.beings

end SS

/-- The two-variant test enumeration of the spec's scenario (§8):
`{Text(String), Count(u64)}`. -/
inductive Edif where
  | text : String → Edif
  | count : Nat → Edif
deriving DecidableEq

/-- Variant metadata of `Edif`: two variants, discriminants 0 and 1. -/
def E2 : EnumInfo Edif :=
  { vc := 2
    index := fun t => match t with | .text _ => 0 | .count _ => 1 }

/-! ## Association-list lemmas -/

@[simp] theorem lookupA_nil {α : Type} (k : Uid) :
    lookupA (α := α) k [] = none := rfl

@[simp] theorem lookupA_cons {α : Type} (k k' : Uid) (v : α)
    (t : List (Uid × α)) :
    lookupA k ((k', v) :: t) = if k' = k then some v else lookupA k t := rfl

@[simp] theorem insertA_nil {α : Type} (k : Uid) (v : α) :
    insertA k v [] = [(k, v)] := rfl

@[simp] theorem insertA_cons {α : Type} (k k' : Uid) (v v' : α)
    (t : List (Uid × α)) :
    insertA k v ((k', v') :: t) =
      if k' = k then (k, v) :: t else (k', v') :: insertA k v t := rfl

theorem lookupA_insertA_self {α : Type} (k : Uid) (v : α)
    (l : List (Uid × α)) : lookupA k (insertA k v l) = some v := by
  induction l with
  | nil => simp
  | cons h t ih =>
    obtain ⟨k', v'⟩ := h
    by_cases hk : k' = k <;> simp [hk, ih]

theorem lookupA_insertA_ne {α : Type} {k k' : Uid} (v : α)
    (l : List (Uid × α)) (h : k' ≠ k) :
    lookupA k' (insertA k v l) = lookupA k' l := by
  induction l with
  | nil => simp [Ne.symm h]
  | cons hd t ih =>
    obtain ⟨k'', v''⟩ := hd
    by_cases hk : k'' = k
    · subst hk
      simp [Ne.symm h, h]
    · by_cases hk' : k'' = k' <;> simp [hk, hk', ih, h]

theorem keys_insertA {α : Type} (k : Uid) (v : α) (l : List (Uid × α)) :
    (insertA k v l).map Prod.fst =
      if k ∈ l.map Prod.fst then l.map Prod.fst else l.map Prod.fst ++ [k] := by
  induction l with
  | nil => simp
  | cons hd t ih =>
    obtain ⟨k', v'⟩ := hd
    by_cases hk : k' = k
    · subst hk; simp
    · simp only [insertA_cons, if_neg hk, List.map_cons, ih]
      by_cases hm : k ∈ t.map Prod.fst <;>
        simp [hm, Ne.symm hk]

theorem lookupA_eq_none_iff {α : Type} (k : Uid) (l : List (Uid × α)) :
    lookupA k l = none ↔ k ∉ l.map Prod.fst := by
  induction l with
  | nil => simp
  | cons hd t ih =>
    obtain ⟨k', v'⟩ := hd
    by_cases hk : k' = k
    · subst hk; simp
    · simp only [lookupA_cons, if_neg hk, ih, List.map_cons, List.mem_cons]
      constructor
      · intro hm hc
        rcases hc with hc | hc
        · exact hk hc.symm
        · exact hm hc
      · intro hm hc
        exact hm (Or.inr hc)

theorem lookupA_isSome_iff {α : Type} (k : Uid) (l : List (Uid × α)) :
    (lookupA k l).isSome = true ↔ k ∈ l.map Prod.fst := by
  rcases h : lookupA k l with _ | v
  · simp [(lookupA_eq_none_iff k l).mp h]
  · simp only [Option.isSome_some, true_iff]
    by_contra hm
    rw [(lookupA_eq_none_iff k l).mpr hm] at h
    exact Option.noConfusion h

theorem lookupA_mem {α : Type} {k : Uid} {v : α} {l : List (Uid × α)}
    (h : lookupA k l = some v) : (k, v) ∈ l := by
  induction l with
  | nil => exact absurd h (by simp)
  | cons hd t ih =>
    obtain ⟨k', v'⟩ := hd
    by_cases hk : k' = k
    · subst hk
      rw [lookupA_cons, if_pos rfl] at h
      obtain rfl : v' = v := Option.some.inj h
      exact List.mem_cons_self _ _
    · rw [lookupA_cons, if_neg hk] at h
      exact List.mem_cons_of_mem _ (ih h)

theorem eraseA_nil {α : Type} (k : Uid) : eraseA (α := α) k [] = [] := rfl

theorem eraseA_cons {α : Type} (k k' : Uid) (v : α) (t : List (Uid × α)) :
    eraseA k ((k', v) :: t) =
      if k' = k then eraseA k t else (k', v) :: eraseA k t := by
  by_cases hk : k' = k <;> simp [eraseA, List.filter_cons, hk]

theorem lookupA_eraseA {α : Type} (k k' : Uid) (l : List (Uid × α)) :
    lookupA k' (eraseA k l) = if k' = k then none else lookupA k' l := by
  induction l with
  | nil => simp [eraseA]
  | cons hd t ih =>
    obtain ⟨k'', v''⟩ := hd
    by_cases hk : k'' = k
    · subst hk
      by_cases hk' : k' = k''
      · subst hk'; simp [eraseA_cons, ih]
      · simp [eraseA_cons, ih, hk', Ne.symm hk']
    · by_cases hk' : k' = k
      · subst hk'; simp [eraseA_cons, hk, ih]
      · by_cases hk2 : k'' = k' <;> simp [eraseA_cons, hk, ih, hk', hk2]

theorem eraseA_of_not_mem {α : Type} {k : Uid} {l : List (Uid × α)}
    (h : k ∉ l.map Prod.fst) : eraseA k l = l := by
  induction l with
  | nil => rfl
  | cons hd t ih =>
    obtain ⟨k', v'⟩ := hd
    simp only [List.map_cons, List.mem_cons, not_or] at h
    rw [eraseA_cons, if_neg (fun hc => h.1 hc.symm), ih h.2]

theorem lookupA_modifyA_self {α : Type} (k : Uid) (f : α → α)
    (l : List (Uid × α)) :
    lookupA k (modifyA k f l) = (lookupA k l).map f := by
  induction l with
  | nil => simp [modifyA]
  | cons hd t ih =>
    obtain ⟨k', v'⟩ := hd
    by_cases hk : k' = k <;> simp [modifyA, hk, ih]

theorem lookupA_modifyA_ne {α : Type} {k k' : Uid} (f : α → α)
    (l : List (Uid × α)) (h : k' ≠ k) :
    lookupA k' (modifyA k f l) = lookupA k' l := by
  induction l with
  | nil => simp [modifyA]
  | cons hd t ih =>
    obtain ⟨k'', v''⟩ := hd
    by_cases hk : k'' = k
    · subst hk; simp [modifyA, Ne.symm h, h]
    · by_cases hk2 : k'' = k' <;> simp [modifyA, hk, hk2, ih, h]

theorem keys_modifyA {α : Type} (k : Uid) (f : α → α) (l : List (Uid × α)) :
    (modifyA k f l).map Prod.fst = l.map Prod.fst := by
  induction l with
  | nil => rfl
  | cons hd t ih =>
    obtain ⟨k', v'⟩ := hd
    by_cases hk : k' = k <;> simp [modifyA, hk, ih]

theorem modifyFirst_of_forall_not {α : Type} {p : α → Bool} (f : α → α)
    {l : List α} (h : ∀ x ∈ l, p x = false) : modifyFirst p f l = l := by
  induction l with
  | nil => rfl
  | cons a t ih =>
    simp only [modifyFirst, h a (List.mem_cons_self a t)]
    simp only [Bool.false_eq_true, if_false, List.cons.injEq, true_and]
    exact ih (fun x hx => h x (List.mem_cons_of_mem a hx))

/-- Decomposition of a successful `find?` together with the matching
`modifyFirst`: the list splits at the first match. -/
theorem find?_modifyFirst_split {α : Type} {p : α → Bool} {l : List α}
    {a : α} (h : l.find? p = some a) (f : α → α) :
    ∃ l₁ l₂, l = l₁ ++ a :: l₂ ∧ (∀ x ∈ l₁, p x = false) ∧ p a = true ∧
      modifyFirst p f l = l₁ ++ f a :: l₂ := by
  induction l with
  | nil => exact absurd h (by simp)
  | cons b t ih =>
    rcases hb : p b with _ | _
    · rw [List.find?_cons_of_neg _ (by simp [hb])] at h
      obtain ⟨l₁, l₂, rfl, h₁, h₂, h₃⟩ := ih h
      exact ⟨b :: l₁, l₂, rfl, by
        intro x hx
        rcases List.mem_cons.mp hx with rfl | hx
        · exact hb
        · exact h₁ x hx, h₂, by simp [modifyFirst, hb, h₃]⟩
    · rw [List.find?_cons_of_pos _ hb] at h
      obtain rfl : b = a := by simp_all
      exact ⟨[], t, rfl, by simp, hb, by simp [modifyFirst, hb]⟩

/-! ## Concrete scenario states (spec §8)

The executable scenario: conceive root "r", attach sub-object "s", add
property `Text("hello")` named "greeting". Identifiers produced by the
counter: root 0, world 1, entity 2, property 3. -/

/-- State after `conceive_being "r"`. -/
def scenario1 : SS Edif := (SS.conceive_being (SS.new Edif) "r").1

/-- State after `constitute_being(r, "s")` (world choice 0). -/
def scenario2 : SS Edif :=
  ((SS.constitute_being E2 scenario1 0 "s" 0).getD (SS.new Edif, 0)).1

/-- State after `add_property(r, E, Text("hello"), "greeting")`. -/
def scenario3 : SS Edif :=
  match SS.add_property E2 scenario2 0 2 (Edif.text "hello") "greeting" with
  | Res.ok x => x.1
  | _ => SS.new Edif

/-- The snapshot `ascend_being` produces on `scenario3` (checked below). -/
def scenarioSnap : List (AscendedBeing Edif) :=
  [{ name := "r", id := 0
     entities := [{ name := "s", id := 2
                    components := [{ name := "greeting", id := 3
                                     data := Edif.text "hello" }] }] }]

/-! ## Claim theorems: the easy evaluations -/

/-- C9: `World::set_entity` inserts or replaces the entity record but
never increments `entities_count`, so the live count can be strictly
smaller than the number of registered entities; calling `remove_entity` on
an entity created only via `set_entity` in an otherwise fresh world
reaches the unguarded decrement of the zero unsigned count — an
unsigned-underflow panic reachable through the public interface. -/
theorem set_entity_count_underflow :
    (∀ (T : Type) (w : World T) (id : Uid) (n : String),
      ((World.set_entity w id n).1).entitiesCount = w.entitiesCount)
    ∧ ∀ (wid vc : Nat) (id : Uid) (n : String),
      ((World.set_entity (World.new Edif wid vc) id n).1).entitiesCount = 0
      ∧ ((World.set_entity (World.new Edif wid vc) id n).1).entities.length = 1
      ∧ World.remove_entity ((World.set_entity (World.new Edif wid vc) id n).1) id
          = Res.panic := by
  refine ⟨fun T w id n => rfl, fun wid vc id n => ⟨rfl, rfl, ?_⟩⟩
  simp [World.set_entity, World.new, World.remove_entity, World.removeLocs,
    lookupA]

/-- C10: for a property id present in no world's tables,
`StarSystem::set_property_by_id` succeeds, returns that same id, and
leaves the whole store unchanged — the missing id is never reported. -/
theorem set_property_by_id_missing_id_silent {T : Type} (s : SS T) (p : Uid)
    (v : T) (h : ∀ wp ∈ s.worlds, World.has_component wp.2 p = false) :
    SS.set_property_by_id s p v = some (s, p) := by
  unfold SS.set_property_by_id
  rw [List.find?_eq_none.mpr (fun x hx => by simp [h x hx])]

/-- Witness for C10: on the scenario state (which holds property 3),
updating the absent id 10 succeeds with the state unchanged. -/
theorem set_property_by_id_missing_id_silent_witness :
    SS.set_property_by_id scenario3 10 (Edif.count 5) = some (scenario3, 10) :=
  set_property_by_id_missing_id_silent scenario3 10 (Edif.count 5) (by decide)

/-- C4 failing run: `conceive_being "a"` yields root id 0; `set_being`
with that same id 0 appends a second root instead of overwriting (contrary
to the source's own comment), so the root store holds two roots with id 0
— identifier uniqueness (I1) is violated in the root namespace. -/
theorem set_being_duplicates_root_id :
    (((SS.set_being (SS.conceive_being (SS.new Edif) "a").1
        (SS.conceive_being (SS.new Edif) "a").2 "b").1).beings.map Being.id)
      = [0, 0] := by decide

/-- C1 failing run: the spec §8 scenario ascends to `scenarioSnap`
(one entity "s" with the "greeting" property); rehydrating that snapshot
into a fresh store with `develop_being` and ascending again yields the
same root/entity structure but an empty component list — `develop_being`
never writes the property values back into any table (the delegation is
commented out in the source), so the round-trip drops every property. -/
theorem develop_ascend_drops_property_values :
    SS.ascend_being scenario3 0 = some scenarioSnap
    ∧ (SS.develop_being E2 (SS.conceive_being (SS.new Edif) "x").1 0
        scenarioSnap [0]).map (fun r => SS.ascend_being r.1 0)
      = some (some [{ name := "x", id := 0
                      entities := [{ name := "s", id := 2
                                     components := [] }] }]) := by
  constructor
  · decide
  · decide

/-- C5 counterexample: calling the partition-level property add with an
entity id absent from the registry does not return a `NotFound` error —
it panics (the entity lookup is unwrapped), modelled as `none`. -/
theorem add_component_unknown_entity_panics :
    World.add_component_to_entity E2 (World.new Edif 0 2) 5 7
      (Edif.text "x") "n" = none := by decide

/-- C5 amended: `World::add_component_to_entity` panics (rather than
returning `NotFound`) when the entity id is unknown; when the entity is
known and the discriminant table exists, it inserts `{name, value}` into
the discriminant-selected table under the fresh id and appends the
location pair to the entity's record. -/
theorem add_component_to_entity_spec {T : Type} (E : EnumInfo T)
    (w : World T) (fresh entity : Uid) (v : T) (n : String) :
    (lookupA entity w.entities = none →
      World.add_component_to_entity E w fresh entity v n = none)
    ∧ (∀ ent, lookupA entity w.entities = some ent →
        E.index v < w.components.length →
        ∃ w', World.add_component_to_entity E w fresh entity v n
            = some (w', fresh)
          ∧ (∃ tbl, w.components.get? (E.index v) = some tbl
              ∧ w'.components = w.components.set (E.index v)
                  (insertA fresh { name := n, data := v } tbl)
              ∧ lookupA fresh (insertA fresh { name := n, data := v } tbl)
                  = some { name := n, data := v })
          ∧ lookupA entity w'.entities
              = some { ent with location := ent.location ++ [(E.index v, fresh)] }
          ∧ w'.entitiesCount = w.entitiesCount) := by
  constructor
  · intro h
    rcases hg : w.components.get? (E.index v) with _ | tbl
    · simp only [World.add_component_to_entity, hg]
    · simp only [World.add_component_to_entity, hg, h]
  · intro ent hent hlt
    rcases hg : w.components.get? (E.index v) with _ | tbl
    · exact absurd hlt (not_lt.mpr (List.get?_eq_none.mp hg))
    · refine ⟨{ w with
          components := w.components.set (E.index v)
            (insertA fresh { name := n, data := v } tbl)
          entities := modifyA entity
            (fun e => { e with location := e.location ++ [(E.index v, fresh)] })
            w.entities }, ?_, ?_, ?_, ?_⟩
      · simp only [World.add_component_to_entity, hg, hent]
      · exact ⟨tbl, rfl, rfl, lookupA_insertA_self _ _ _⟩
      · show lookupA entity (modifyA entity _ w.entities) = _
        rw [lookupA_modifyA_self, hent]
        rfl
      · rfl

/-! ## More helper lemmas -/

theorem mem_insertA {α : Type} {x : Uid × α} {k : Uid} {v : α}
    {l : List (Uid × α)} (h : x ∈ insertA k v l) : x = (k, v) ∨ x ∈ l := by
  induction l with
  | nil => simpa using h
  | cons hd t ih =>
    obtain ⟨k', v'⟩ := hd
    by_cases hk : k' = k
    · rw [insertA_cons, if_pos hk] at h
      rcases List.mem_cons.mp h with rfl | h
      · exact Or.inl rfl
      · exact Or.inr (List.mem_cons_of_mem _ h)
    · rw [insertA_cons, if_neg hk] at h
      rcases List.mem_cons.mp h with rfl | h
      · exact Or.inr (List.mem_cons_self _ _)
      · rcases ih h with h | h
        · exact Or.inl h
        · exact Or.inr (List.mem_cons_of_mem _ h)

theorem mem_modifyFirst {α : Type} {p : α → Bool} {f : α → α} {x : α}
    {l : List α} (hx : x ∈ l) (hpx : p x = false) :
    x ∈ modifyFirst p f l := by
  induction l with
  | nil => exact absurd hx (by simp)
  | cons a t ih =>
    rcases List.mem_cons.mp hx with rfl | hx
    · simp [modifyFirst, hpx]
    · by_cases hpa : p a
      · simp [modifyFirst, hpa, List.mem_cons_of_mem _ hx]
      · simp only [modifyFirst, hpa]
        simp only [Bool.false_eq_true, if_false, List.mem_cons]
        exact Or.inr (ih hx)

theorem mem_of_mem_modifyFirst {α : Type} {p : α → Bool} {f : α → α} {x : α}
    {l : List α} (hx : x ∈ modifyFirst p f l) :
    x ∈ l ∨ ∃ a ∈ l, p a = true ∧ x = f a := by
  induction l with
  | nil => exact absurd hx (by simp [modifyFirst])
  | cons a t ih =>
    by_cases hpa : p a
    · simp only [modifyFirst, hpa, if_true] at hx
      rcases List.mem_cons.mp hx with rfl | hx
      · exact Or.inr ⟨a, List.mem_cons_self _ _, hpa, rfl⟩
      · exact Or.inl (List.mem_cons_of_mem _ hx)
    · simp only [modifyFirst, hpa] at hx
      simp only [Bool.false_eq_true, if_false, List.mem_cons] at hx
      rcases hx with rfl | hx
      · exact Or.inl (List.mem_cons_self _ _)
      · rcases ih hx with h | ⟨b, hb, hpb, rfl⟩
        · exact Or.inl (List.mem_cons_of_mem _ h)
        · exact Or.inr ⟨b, List.mem_cons_of_mem _ hb, hpb, rfl⟩

theorem modifyA_eq_self {α : Type} {k : Uid} {f : α → α} {l : List (Uid × α)}
    (h : ∀ v, lookupA k l = some v → f v = v) : modifyA k f l = l := by
  induction l with
  | nil => rfl
  | cons hd t ih =>
    obtain ⟨k', v'⟩ := hd
    by_cases hk : k' = k
    · subst hk
      have : f v' = v' := h v' (by simp)
      simp [modifyA, this]
    · simp only [modifyA, if_neg hk, List.cons.injEq, true_and]
      exact ih (fun v hv => h v (by simp [hk, hv]))

theorem set_self_of_get? {α : Type} :
    ∀ (l : List α) (i : Nat) (x : α), l.get? i = some x → l.set i x = l := by
  intro l
  induction l with
  | nil => intro i x h; exact absurd h (by simp)
  | cons a t ih =>
    intro i x h
    cases i with
    | zero =>
      obtain rfl : a = x := by simpa using h
      simp
    | succ j =>
      simp only [List.get?_cons_succ] at h
      simp [ih j x h]

theorem World.findTable_eq_none {T : Type} {comps : List (CompMap T)} {c : Uid}
    (h : ∀ tbl ∈ comps, lookupA c tbl = none) : World.findTable comps c = none := by
  induction comps with
  | nil => rfl
  | cons tbl rest ih =>
    simp only [World.findTable, h tbl (List.mem_cons_self _ _), Option.isSome_none,
      Bool.false_eq_true, if_false]
    rw [ih (fun t ht => h t (List.mem_cons_of_mem _ ht))]
    rfl

theorem filter_eq_self_of_forall {α : Type} {p : α → Bool} {l : List α}
    (h : ∀ x ∈ l, p x = true) : l.filter p = l :=
  List.filter_eq_self.mpr h

/-- C8 part proof (world level): removing an absent property id completes
without error and leaves the world unchanged. -/
theorem remove_component_absent_noop {T : Type} (w : World T)
    (fresh entity p : Uid) (ent : Entity)
    (hent : lookupA entity w.entities = some ent)
    (habs : ∀ tbl ∈ w.components, lookupA p tbl = none)
    (hloc : ∀ pr ∈ ent.location, pr.2 ≠ p)
    (hlen : 0 < w.components.length)
    (hfr : ∀ tbl ∈ w.components, lookupA fresh tbl = none)
    (hfl : ∀ pr ∈ ent.location, pr.2 ≠ fresh) :
    World.remove_component_from_entity w fresh entity p = some w := by
  have hscan : World.findTable w.components p = none := World.findTable_eq_none habs
  obtain ⟨tbl0, hg0⟩ : ∃ tbl0, w.components.get? 0 = some tbl0 := by
    rcases hq : w.components.get? 0 with _ | t
    · exact absurd hlen (by simpa using List.get?_eq_none.mp hq)
    · exact ⟨t, rfl⟩
  have h0mem : tbl0 ∈ w.components := by
    have := List.get?_mem hg0
    exact this
  have herase : eraseA fresh tbl0 = tbl0 :=
    eraseA_of_not_mem (fun hm => by
      have := (lookupA_eq_none_iff fresh tbl0).mp (hfr tbl0 h0mem)
      exact this hm)
  have hset : w.components.set 0 (eraseA fresh tbl0) = w.components := by
    rw [herase]; exact set_self_of_get? _ _ _ hg0
  have hmod : modifyA entity
      (fun e => { e with location := e.location.filter (fun pr => pr.2 ≠ p) })
      w.entities = w.entities := by
    apply modifyA_eq_self
    intro v hv
    rw [hent] at hv
    obtain rfl : ent = v := Option.some.inj hv
    have hfl2 : ent.location.filter (fun pr => pr.2 ≠ p) = ent.location :=
      filter_eq_self_of_forall (fun x hx => by simpa using hloc x hx)
    calc ({ location := ent.location.filter (fun pr => pr.2 ≠ p)
            name := ent.name } : Entity)
        = { location := ent.location, name := ent.name } := by rw [hfl2]
      _ = ent := rfl
  have hany : ent.location.any (fun pr => pr.2 = fresh) = false := by
    rw [List.any_eq_false]
    intro x hx
    simpa using hfl x hx
  simp only [World.remove_component_from_entity, hscan, Option.getD_none,
    hg0, hmod, hent, hany]
  simp [hset]

/-- When no mirror of any root holds the property id, the
`remove_property` scan is a complete no-op. -/
theorem removePropGo_no_match {T : Type} (p : Uid) :
    ∀ (bs : List Being) (ws : List (Uid × World T)) (c : Nat),
      (∀ b ∈ bs, ∀ m ∈ b.entities, ∀ q ∈ m.properties, q.id ≠ p) →
      SS.removePropGo p bs ws c = some (bs, ws, c) := by
  intro bs
  induction bs with
  | nil => intro ws c h; rfl
  | cons b rest ih =>
    intro ws c h
    have hfind : b.entities.find?
        (fun m => m.properties.any (fun q => q.id == p)) = none := by
      rw [List.find?_eq_none]
      intro m hm
      simp only [List.any_eq_true, not_exists, not_and, Bool.not_eq_true]
      intro q hq
      simp [h b (List.mem_cons_self _ _) m hm q hq]
    simp only [SS.removePropGo, hfind,
      ih ws c (fun b' hb' => h b' (List.mem_cons_of_mem _ hb'))]
    rfl

/-- After a successful `remove_property` scan on roots where the property
id occurs in at most one mirror per root, no surviving mirror holds it. -/
theorem removePropGo_clears {T : Type} (p : Uid) :
    ∀ (bs : List Being) (ws : List (Uid × World T)) (c : Nat) bs' ws' c',
      SS.removePropGo p bs ws c = some (bs', ws', c') →
      (∀ b ∈ bs, (b.entities.filter
        (fun m => m.properties.any (fun q => q.id == p))).length ≤ 1) →
      ∀ b' ∈ bs', ∀ m ∈ b'.entities, ∀ q ∈ m.properties, q.id ≠ p := by
  intro bs
  induction bs with
  | nil =>
    intro ws c bs' ws' c' hok hmul
    obtain ⟨h1, h2, h3⟩ : bs' = [] ∧ ws = ws' ∧ c = c' := by
      simpa [SS.removePropGo] using hok
    subst h1
    simp
  | cons b rest ih =>
    intro ws c bs' ws' c' hok hmul
    rcases hfind : b.entities.find?
        (fun m => m.properties.any (fun q => q.id == p)) with _ | m
    · simp only [SS.removePropGo, hfind, Option.map_eq_some'] at hok
      obtain ⟨⟨bs2, ws2, c2⟩, hrec, heq⟩ := hok
      simp only [Prod.mk.injEq] at heq
      obtain ⟨h1, h2, h3⟩ := heq
      subst h1; subst h2; subst h3
      intro b' hb' m' hm' q hq
      rcases List.mem_cons.mp hb' with rfl | hb'
      · have := List.find?_eq_none.mp hfind m' hm'
        simp only [List.any_eq_true, not_exists, not_and] at this
        intro hqp
        have hqtrue : (q.id == p) = true := by simp [hqp]
        exact absurd hqtrue (by simpa using this q hq)
      · exact ih ws c bs2 ws2 c2 hrec
          (fun x hx => hmul x (List.mem_cons_of_mem _ hx)) b' hb' m' hm' q hq
    · simp only [SS.removePropGo, hfind] at hok
      rcases hstep : (match lookupA m.location.world ws with
        | none => some (ws, c)
        | some w =>
          match World.remove_component_from_entity w c m.id p with
          | none => none
          | some w' => some (insertA m.location.world w' ws, c + 1) :
          Option (List (Uid × World T) × Nat)) with _ | ws1c1
      · rw [hstep] at hok; exact absurd hok (by simp)
      · rw [hstep] at hok
        obtain ⟨ws1, c1⟩ := ws1c1
        simp only [Option.map_eq_some'] at hok
        obtain ⟨⟨bs2, ws2, c2⟩, hrec, heq⟩ := hok
        simp only [Prod.mk.injEq] at heq
        obtain ⟨h1, h2, h3⟩ := heq
        subst h1; subst h2; subst h3
        intro b' hb' m' hm' q hq
        rcases List.mem_cons.mp hb' with rfl | hb'
        · simp only at hm'
          obtain ⟨l₁, l₂, hsplit, hl₁, hpm, hmod⟩ :=
            find?_modifyFirst_split hfind
              (fun m' => { m' with
                properties := m'.properties.filter (fun q => q.id ≠ p) })
          rw [hmod] at hm'
          have hmul1 := hmul b (List.mem_cons_self _ _)
          rw [hsplit] at hmul1
          rw [List.filter_append, List.filter_cons, if_pos hpm] at hmul1
          have hfl₁ : l₁.filter
              (fun m' => m'.properties.any (fun q => q.id == p)) = [] := by
            rw [List.filter_eq_nil_iff]
            intro x hx
            simp [hl₁ x hx]
          have hfl₂ : ∀ x ∈ l₂,
              (x.properties.any (fun q => q.id == p)) = false := by
            rw [hfl₁] at hmul1
            simp only [List.nil_append, List.length_cons] at hmul1
            have hnil : l₂.filter
                (fun m' => m'.properties.any (fun q => q.id == p)) = [] :=
              List.eq_nil_of_length_eq_zero (by omega)
            intro x hx
            rcases hb : x.properties.any (fun q => q.id == p) with _ | _
            · rfl
            · exfalso
              have hmem : x ∈ l₂.filter
                  (fun m' => m'.properties.any (fun q => q.id == p)) :=
                List.mem_filter.mpr ⟨hx, hb⟩
              rw [hnil] at hmem
              exact absurd hmem (List.not_mem_nil x)
          rcases List.mem_append.mp hm' with hm' | hm'
          · have := hl₁ m' hm'
            simp only [List.any_eq_true, not_exists] at this ⊢
            intro hqp
            have : ¬ ((m'.properties.any (fun q => q.id == p)) = true) := by
              simp [this]
            exact this (by
              rw [List.any_eq_true]
              exact ⟨q, hq, by simp [hqp]⟩)
          · rcases List.mem_cons.mp hm' with rfl | hm'
            · intro hqp
              have := List.mem_filter.mp hq
              simp only [decide_not] at this
              have h2 := this.2
              simp [hqp] at h2
            · have := hfl₂ m' hm'
              intro hqp
              rw [List.any_eq_false] at this
              have := this q hq
              simp [hqp] at this
        · exact ih ws1 c1 bs2 ws2 c2 hrec
            (fun x hx => hmul x (List.mem_cons_of_mem _ hx)) b' hb' m' hm' q hq

/-- C8: removing a property that is not found is a silent no-op and never
a fatal fault. Partition level: when the entity is known, the id is in no
table and no location pair carries it (and the internally generated fresh
uid is likewise absent), `remove_component_from_entity` returns the world
unchanged. Root-store level: on a store whose roots each hold the id in
at most one mirror, a successful `remove_property` followed by a second
`remove_property` of the same id leaves the state of the first call
untouched and succeeds. -/
theorem remove_property_missing_silent_noop :
    (∀ (T : Type) (w : World T) (fresh entity p : Uid) (ent : Entity),
      lookupA entity w.entities = some ent →
      (∀ tbl ∈ w.components, lookupA p tbl = none) →
      (∀ pr ∈ ent.location, pr.2 ≠ p) →
      0 < w.components.length →
      (∀ tbl ∈ w.components, lookupA fresh tbl = none) →
      (∀ pr ∈ ent.location, pr.2 ≠ fresh) →
      World.remove_component_from_entity w fresh entity p = some w)
    ∧ (∀ (T : Type) (s s1 : SS T) (p : Uid),
        (∀ b ∈ s.beings, (b.entities.filter
          (fun m => m.properties.any (fun q => q.id == p))).length ≤ 1) →
        SS.remove_property s p = some s1 →
        SS.remove_property s1 p = some s1) := by
  constructor
  · intro T w fresh entity p ent hent habs hloc hlen hfr hfl
    exact remove_component_absent_noop w fresh entity p ent hent habs hloc
      hlen hfr hfl
  · intro T s s1 p hmul hok
    rcases hgo : SS.removePropGo p s.beings s.worlds s.ctr with _ | r
    · rw [SS.remove_property, hgo] at hok
      exact absurd hok (by simp)
    · obtain ⟨bs, ws, c⟩ := r
      rw [SS.remove_property, hgo] at hok
      obtain rfl : ({ worlds := ws, beings := bs, ctr := c } : SS T) = s1 :=
        Option.some.inj hok
      have hclear := removePropGo_clears p s.beings s.worlds s.ctr bs ws c
        hgo hmul
      rw [SS.remove_property]
      simp only
      rw [removePropGo_no_match p bs ws c hclear]

/-- The scenario world of `scenario2`: one registered entity "s" (id 2),
two empty tables. -/
def W1 : World Edif :=
  { id := 1, indexes := [0, 1], entitiesCount := 1
    entities := [(2, { location := [], name := "s" })]
    components := [[], []] }

/-- The scenario state after removing property 3 from `scenario3`. -/
def scenario4 : SS Edif :=
  (SS.remove_property scenario3 3).getD (SS.new Edif)

/-- Witness for C8: on `W1` removing the absent id 9 returns the world
unchanged, and on the scenario state the second removal of property 3 is
a silent no-op. -/
theorem remove_property_missing_silent_noop_witness :
    World.remove_component_from_entity W1 5 2 9 = some W1
    ∧ SS.remove_property scenario4 3 = some scenario4 :=
  ⟨remove_property_missing_silent_noop.1 Edif W1 5 2 9
      { location := [], name := "s" } (by decide) (by decide) (by decide)
      (by decide) (by decide) (by decide),
    remove_property_missing_silent_noop.2 Edif scenario3 scenario4 3
      (by decide) (by decide)⟩

/-- Witness for C5 (amended): on the scenario world `W1`, adding to the
unknown entity 9 panics, while adding to the known entity 2 inserts into
table 0 and appends the location pair. -/
theorem add_component_to_entity_spec_witness :
    World.add_component_to_entity E2 W1 5 9 (Edif.text "x") "n" = none
    ∧ ∃ w', World.add_component_to_entity E2 W1 5 2 (Edif.text "x") "n"
          = some (w', 5)
        ∧ (∃ tbl, W1.components.get? (E2.index (Edif.text "x")) = some tbl
            ∧ w'.components = W1.components.set (E2.index (Edif.text "x"))
                (insertA 5 { name := "n", data := Edif.text "x" } tbl)
            ∧ lookupA 5 (insertA 5 { name := "n", data := Edif.text "x" } tbl)
                = some { name := "n", data := Edif.text "x" })
        ∧ lookupA 2 w'.entities
            = some { location := [] ++ [(E2.index (Edif.text "x"), 5)]
                     name := "s" }
        ∧ w'.entitiesCount = W1.entitiesCount :=
  ⟨(add_component_to_entity_spec E2 W1 5 9 (Edif.text "x") "n").1 (by decide),
    (add_component_to_entity_spec E2 W1 5 2 (Edif.text "x") "n").2
      { location := [], name := "s" } (by decide) (by decide)⟩

/-! ## Entity-removal lemmas (shared by kill_being and constitute_being) -/

theorem keys_eraseA_sublist {α : Type} (k : Uid) (l : List (Uid × α)) :
    ((eraseA k l).map Prod.fst).Sublist (l.map Prod.fst) :=
  List.Sublist.map Prod.fst (List.filter_sublist l)

theorem length_eraseA_of_mem {α : Type} {k : Uid} {l : List (Uid × α)}
    (hnd : (l.map Prod.fst).Nodup) (hm : k ∈ l.map Prod.fst) :
    (eraseA k l).length + 1 = l.length := by
  induction l with
  | nil => exact absurd hm (by simp)
  | cons hd t ih =>
    obtain ⟨k', v'⟩ := hd
    simp only [List.map_cons, List.nodup_cons, List.mem_cons] at hnd hm
    by_cases hk : k' = k
    · subst hk
      rw [eraseA_cons, if_pos rfl]
      have : k' ∉ t.map Prod.fst := hnd.1
      rw [eraseA_of_not_mem this]
      simp
    · rcases hm with hm | hm
      · exact absurd hm.symm hk
      · rw [eraseA_cons, if_neg hk]
        simp only [List.length_cons]
        rw [← ih hnd.2 hm]

theorem removeLocs_some {T : Type} :
    ∀ (locs : List (Nat × Uid)) (comps : List (CompMap T)),
      (∀ pr ∈ locs, pr.1 < comps.length) →
      ∃ comps', World.removeLocs locs comps = some comps'
        ∧ comps'.length = comps.length := by
  intro locs
  induction locs with
  | nil => exact fun comps _ => ⟨comps, rfl, rfl⟩
  | cons pr rest ih =>
    intro comps hb
    obtain ⟨i, c⟩ := pr
    have hi : i < comps.length := hb (i, c) (List.mem_cons_self _ _)
    obtain ⟨tbl, htbl⟩ : ∃ tbl, comps.get? i = some tbl := by
      rcases hq : comps.get? i with _ | t
      · exact absurd hi (by simpa using List.get?_eq_none.mp hq)
      · exact ⟨t, rfl⟩
    obtain ⟨comps', hrec, hlen⟩ := ih (comps.set i (eraseA c tbl))
      (fun x hx => by
        rw [List.length_set]
        exact hb x (List.mem_cons_of_mem _ hx))
    refine ⟨comps', ?_, ?_⟩
    · simp only [World.removeLocs, htbl, hrec]
    · rw [hlen, List.length_set]

/-- `remove_entity` on a well-formed world with a registered entity:
succeeds, unregisters the entity and decrements the count. -/
theorem remove_entity_ok {T : Type} (w : World T) (eid : Uid) (ent : Entity)
    (hent : lookupA eid w.entities = some ent)
    (hidx : ∀ pr ∈ ent.location, pr.1 < w.components.length)
    (hcount : w.entitiesCount = w.entities.length) :
    ∃ comps', World.removeLocs ent.location w.components = some comps'
      ∧ comps'.length = w.components.length
      ∧ World.remove_entity w eid = Res.ok
          { w with components := comps'
                   entities := w.entities.filter (fun p => p.1 ≠ eid)
                   entitiesCount := w.entitiesCount - 1 } := by
  obtain ⟨comps', hrl, hlen⟩ := removeLocs_some ent.location w.components hidx
  have hne : w.entitiesCount ≠ 0 := by
    rw [hcount]
    have := lookupA_mem hent
    have : 0 < w.entities.length := List.length_pos.mpr
      (List.ne_nil_of_mem this)
    omega
  refine ⟨comps', hrl, hlen, ?_⟩
  simp only [World.remove_entity, hent, hrl, if_neg hne]

/-- `killFold` preserves an already-removed registry entry. -/
theorem killFold_preserves_none {T : Type} :
    ∀ (ms : List StarEntity) (ws ws' : List (Uid × World T)),
      SS.killFold ms ws = some ws' →
      ∀ wid w eid, lookupA wid ws = some w → lookupA eid w.entities = none →
      ∃ w', lookupA wid ws' = some w' ∧ lookupA eid w'.entities = none := by
  intro ms
  induction ms with
  | nil =>
    intro ws ws' hok wid w eid hw he
    obtain rfl : ws = ws' := Option.some.inj hok
    exact ⟨w, hw, he⟩
  | cons m rest ih =>
    intro ws ws' hok wid w eid hw he
    rcases hmw : lookupA m.location.world ws with _ | mw
    · simp only [SS.killFold, hmw] at hok
      exact ih ws ws' hok wid w eid hw he
    · simp only [SS.killFold, hmw] at hok
      rcases hrem : World.remove_entity mw m.id with _ | _ | mw'
      · simp only [hrem] at hok
        exact absurd hok (by simp)
      · simp only [hrem] at hok
        exact absurd hok (by simp)
      · simp only [hrem] at hok
        by_cases hwid : m.location.world = wid
        · subst hwid
          obtain rfl : mw = w := by
            rw [hmw] at hw; exact Option.some.inj hw
          have hw1 : lookupA m.location.world
              (insertA m.location.world mw' ws) = some mw' :=
            lookupA_insertA_self _ _ _
          have hnone' : lookupA eid mw'.entities = none := by
            rcases hrem2 : lookupA m.id mw.entities with _ | ent
            · simp only [World.remove_entity, hrem2] at hrem
              exact absurd hrem (by simp)
            · simp only [World.remove_entity, hrem2] at hrem
              rcases hrl : World.removeLocs ent.location mw.components
                  with _ | comps'
              · simp only [hrl] at hrem
                exact absurd hrem (by simp)
              · simp only [hrl] at hrem
                by_cases hz : mw.entitiesCount = 0
                · rw [if_pos hz] at hrem; exact absurd hrem (by simp)
                · rw [if_neg hz] at hrem
                  obtain rfl : ({ mw with
                      components := comps'
                      entities := mw.entities.filter (fun p => p.1 ≠ m.id)
                      entitiesCount := mw.entitiesCount - 1 } : World T)
                      = mw' := by
                    cases hrem; rfl
                  show lookupA eid (eraseA m.id mw.entities) = none
                  rw [lookupA_eraseA]
                  by_cases he2 : eid = m.id
                  · rw [if_pos he2]
                  · rw [if_neg he2]; exact he
          exact ih _ _ hok m.location.world mw' eid hw1 hnone'
        · have hw1 : lookupA wid (insertA m.location.world mw' ws)
              = some w := by
            rw [lookupA_insertA_ne _ _ (fun hc => hwid hc.symm)]
            exact hw
          exact ih _ _ hok wid w eid hw1 he

/-- `killFold` on mirrors with pairwise-distinct entity ids, each backed
by a live entity in an existing, consistent world: every removal succeeds
and every referenced entity ends up unregistered. -/
theorem killFold_spec {T : Type} :
    ∀ (ms : List StarEntity) (ws : List (Uid × World T)),
      (ms.map StarEntity.id).Nodup →
      (∀ m ∈ ms, ∃ w, lookupA m.location.world ws = some w
        ∧ (lookupA m.id w.entities).isSome = true) →
      (∀ x ∈ ws, x.2.entitiesCount = x.2.entities.length) →
      (∀ x ∈ ws, (x.2.entities.map Prod.fst).Nodup) →
      (∀ x ∈ ws, ∀ e ∈ x.2.entities, ∀ pr ∈ e.2.location,
        pr.1 < x.2.components.length) →
      ∃ ws', SS.killFold ms ws = some ws'
        ∧ ∀ m ∈ ms, ∃ w', lookupA m.location.world ws' = some w'
            ∧ lookupA m.id w'.entities = none := by
  intro ms
  induction ms with
  | nil =>
    intro ws _ _ _ _ _
    exact ⟨ws, rfl, by simp⟩
  | cons m rest ih =>
    intro ws hnd hval hcount hkeys hidx
    obtain ⟨w, hmw, hsome⟩ := hval m (List.mem_cons_self _ _)
    obtain ⟨ent, hent⟩ : ∃ ent, lookupA m.id w.entities = some ent := by
      rcases hq : lookupA m.id w.entities with _ | e
      · rw [hq] at hsome; exact absurd hsome (by simp)
      · exact ⟨e, rfl⟩
    have hwmem : (m.location.world, w) ∈ ws := lookupA_mem hmw
    obtain ⟨comps', hrl, hlen, hremok⟩ :=
      remove_entity_ok w m.id ent hent
        (fun pr hpr => hidx _ hwmem _ (lookupA_mem hent) pr hpr)
        (hcount _ hwmem)
    have hidmem : m.id ∈ w.entities.map Prod.fst :=
      (lookupA_isSome_iff m.id w.entities).mp hsome
    have hkeysw : (w.entities.map Prod.fst).Nodup := hkeys _ hwmem
    set w' : World T :=
      { w with components := comps'
               entities := w.entities.filter (fun p => p.1 ≠ m.id)
               entitiesCount := w.entitiesCount - 1 } with hw'
    have hstep : SS.killFold (m :: rest) ws
        = SS.killFold rest (insertA m.location.world w' ws) := by
      simp only [SS.killFold, hmw, hremok]
    have hererase : w'.entities = eraseA m.id w.entities := rfl
    have hnd2 : (∀ x ∈ rest, ¬ x.id = m.id)
        ∧ (rest.map StarEntity.id).Nodup := by simpa using hnd
    have hndrest : (rest.map StarEntity.id).Nodup := hnd2.2
    have hval' : ∀ m' ∈ rest, ∃ w2,
        lookupA m'.location.world (insertA m.location.world w' ws) = some w2
        ∧ (lookupA m'.id w2.entities).isSome = true := by
      intro m' hm'
      obtain ⟨w2, hw2, hsome2⟩ := hval m' (List.mem_cons_of_mem _ hm')
      have hne : m'.id ≠ m.id := hnd2.1 m' hm'
      by_cases hww : m'.location.world = m.location.world
      · rw [hww] at hw2
        obtain rfl : w = w2 := by rw [hmw] at hw2; exact Option.some.inj hw2
        refine ⟨w', by rw [hww]; exact lookupA_insertA_self _ _ _, ?_⟩
        rw [hererase, lookupA_eraseA, if_neg hne]
        exact hsome2
      · exact ⟨w2, by
          rw [lookupA_insertA_ne _ _ hww]; exact hw2,
          hsome2⟩
    have hmemins : ∀ x ∈ insertA m.location.world w' ws,
        x = (m.location.world, w') ∨ x ∈ ws := fun x hx => mem_insertA hx
    have hcount' : ∀ x ∈ insertA m.location.world w' ws,
        x.2.entitiesCount = x.2.entities.length := by
      intro x hx
      rcases hmemins x hx with rfl | hx
      · show w.entitiesCount - 1 = (eraseA m.id w.entities).length
        have := length_eraseA_of_mem hkeysw hidmem
        have hc : w.entitiesCount = w.entities.length := hcount _ hwmem
        omega
      · exact hcount x hx
    have hkeys' : ∀ x ∈ insertA m.location.world w' ws,
        (x.2.entities.map Prod.fst).Nodup := by
      intro x hx
      rcases hmemins x hx with rfl | hx
      · exact List.Nodup.sublist (keys_eraseA_sublist m.id w.entities) hkeysw
      · exact hkeys x hx
    have hidx' : ∀ x ∈ insertA m.location.world w' ws,
        ∀ e ∈ x.2.entities, ∀ pr ∈ e.2.location,
        pr.1 < x.2.components.length := by
      intro x hx e he pr hpr
      rcases hmemins x hx with rfl | hx
      · have hmem2 : e ∈ w.entities := List.mem_of_mem_filter he
        have hb : pr.1 < w.components.length := hidx _ hwmem e hmem2 pr hpr
        show pr.1 < comps'.length
        omega
      · exact hidx x hx e he pr hpr
    obtain ⟨ws'', hrest, hpost⟩ :=
      ih (insertA m.location.world w' ws) hndrest hval' hcount' hkeys' hidx'
    refine ⟨ws'', by rw [hstep]; exact hrest, ?_⟩
    intro m' hm'
    rcases List.mem_cons.mp hm' with rfl | hm'
    · have hnone : lookupA m'.id w'.entities = none := by
        rw [hererase, lookupA_eraseA, if_pos rfl]
      exact killFold_preserves_none rest _ ws'' hrest m'.location.world w'
        m'.id (lookupA_insertA_self _ _ _) hnone
    · exact hpost m' hm'

/-- C6 amended: `kill_being` returns the not-found error when no root has
the id; on a root whose mirrors reference pairwise-distinct, live entities
in existing consistent worlds, it removes every referenced partition
entity and then removes the root. (When a referenced world exists but the
entity is already missing, the unwrapped removal panics — see the
counterexample.) -/
theorem kill_being_spec :
    (∀ (T : Type) (s : SS T) (id : Uid),
      (∀ b ∈ s.beings, b.id ≠ id) →
      SS.kill_being s id = Res.err "being does not exist")
    ∧ (∀ (T : Type) (s : SS T) (id : Uid) (i : Nat) (b : Being),
        SS.findBeingIdx s id = some i →
        s.beings.get? i = some b →
        (b.entities.map StarEntity.id).Nodup →
        (∀ m ∈ b.entities, ∃ w, lookupA m.location.world s.worlds = some w
          ∧ (lookupA m.id w.entities).isSome = true) →
        (∀ x ∈ s.worlds, x.2.entitiesCount = x.2.entities.length) →
        (∀ x ∈ s.worlds, (x.2.entities.map Prod.fst).Nodup) →
        (∀ x ∈ s.worlds, ∀ e ∈ x.2.entities, ∀ pr ∈ e.2.location,
          pr.1 < x.2.components.length) →
        ∃ ws', SS.kill_being s id = Res.ok
            { s with worlds := ws', beings := s.beings.eraseIdx i }
          ∧ ∀ m ∈ b.entities, ∃ w',
              lookupA m.location.world ws' = some w'
              ∧ World.has_entity w' m.id = false) := by
  constructor
  · intro T s id hno
    have hfi : SS.findBeingIdx s id = none := by
      rw [SS.findBeingIdx, List.findIdx?_eq_none_iff]
      intro b hb
      simp [hno b hb]
    simp only [SS.kill_being, hfi]
  · intro T s id i b hfi hget hnd hval hcount hkeys hidx
    obtain ⟨ws', hfold, hpost⟩ :=
      killFold_spec b.entities s.worlds hnd hval hcount hkeys hidx
    refine ⟨ws', ?_, ?_⟩
    · simp only [SS.kill_being, hfi, hget, hfold]
    · intro m hm
      obtain ⟨w', hw', hnone⟩ := hpost m hm
      exact ⟨w', hw', by simp [World.has_entity, hnone]⟩

/-- The state reaching the C6 counterexample: conceive root "r" (id 0),
rehydrate a snapshot that lists entity 77 twice (yielding two mirrors of
the same entity), then attach sub-object "c" so the live count is
positive. -/
def c6state : SS Edif :=
  ((SS.constitute_being E2
    ((SS.develop_being E2 (SS.conceive_being (SS.new Edif) "r").1 0
        [{ name := "r", id := 99
           entities := [{ name := "e", id := 77, components := [] },
                        { name := "e", id := 77, components := [] }] }]
        [0]).getD (SS.new Edif, [])).1 0 "c" 0).getD (SS.new Edif, 0)).1

/-- C6 counterexample: on `c6state` the root's first mirror of entity 77
is removed successfully, and the second mirror of the same entity then
hits the `Err` of `remove_entity`, which `kill_being` unwraps — the
partial failure panics instead of continuing. -/
theorem kill_being_partial_failure_panics :
    SS.kill_being c6state 0 = Res.panic := by decide

/-- Witness for C6 (amended): killing an unknown root errs; killing the
scenario root removes its entity from world 1 and drops the root. -/
theorem kill_being_spec_witness :
    SS.kill_being (SS.new Edif) 42 = Res.err "being does not exist"
    ∧ ∃ ws', SS.kill_being scenario3 0 = Res.ok
        { scenario3 with worlds := ws'
                         beings := scenario3.beings.eraseIdx 0 }
      ∧ ∀ m ∈ (({ id := 0
                  entities := [{ location := { world := 1, entity := 2 }
                                 id := 2, name := "s"
                                 properties := [{ name := "greeting", id := 3
                                                  location := { world := 1
                                                                entity := 3 } }] }]
                  name := "r" } : Being)).entities, ∃ w',
          lookupA m.location.world ws' = some w'
          ∧ World.has_entity w' m.id = false :=
  ⟨kill_being_spec.1 Edif (SS.new Edif) 42 (by decide),
    kill_being_spec.2 Edif scenario3 0 0 _ (by decide) (by decide) (by decide)
      (by decide) (by decide) (by decide) (by decide)⟩

/-! ## Rehydration (`develop_being`) analysis -/

theorem modifyFirst_append_first {α : Type} {p : α → Bool} (f : α → α)
    {l₁ : List α} {a : α} (l₂ : List α) (h₁ : ∀ x ∈ l₁, p x = false)
    (ha : p a = true) :
    modifyFirst p f (l₁ ++ a :: l₂) = l₁ ++ f a :: l₂ := by
  induction l₁ with
  | nil => simp [modifyFirst, ha]
  | cons b t ih =>
    have hb : p b = false := h₁ b (List.mem_cons_self _ _)
    simp only [List.cons_append, modifyFirst, hb, Bool.false_eq_true, if_false,
      List.cons.injEq, true_and]
    exact ih (fun x hx => h₁ x (List.mem_cons_of_mem _ hx))

theorem find?_isSome_of_mem {α : Type} {p : α → Bool} {l : List α} {a : α}
    (ha : a ∈ l) (hpa : p a = true) : ∃ b, l.find? p = some b := by
  rcases h : l.find? p with _ | b
  · exact absurd hpa (by simpa using List.find?_eq_none.mp h a ha)
  · exact ⟨b, rfl⟩

/-- `has_component` depends only on the tables. -/
theorem has_component_congr {T : Type} {w w2 : World T}
    (h : w.components = w2.components) (c : Uid) :
    World.has_component w c = World.has_component w2 c := by
  simp [World.has_component, h]

/-- A freshly created world holds no component. -/
theorem has_component_new {T : Type} (wid vc : Nat) (c : Uid) :
    World.has_component (World.new T wid vc) c = false := by
  simp only [World.has_component, World.new, List.any_eq_false]
  intro tbl htbl
  rw [List.eq_of_mem_replicate htbl]
  simp

/-- One rehydration step (`developEntityStep`): the chosen world gets the
snapshot entity overwritten with an empty location list, the counter is
untouched, the target root acquires (or refreshes) a mirror of the
snapshot entity carrying all component ids and names, facts about mirrors
of other ids survive, and roots are never removed. -/
theorem developEntityStep_cases {T : Type} (being wid : Uid) (s s1 : SS T)
    (e : AscendedEntity T)
    (hok : SS.developEntityStep being wid s e = some s1)
    (HB : ∃ b ∈ s.beings, b.id = being) :
    ∃ w, lookupA wid s.worlds = some w
      ∧ s1.worlds = insertA wid (World.set_entity w e.id e.name).1 s.worlds
      ∧ s1.ctr = s.ctr
      ∧ (∀ c ∈ e.components, ∃ b' ∈ s1.beings, b'.id = being
          ∧ ∃ m ∈ b'.entities, m.id = e.id
          ∧ ∃ q ∈ m.properties, q.id = c.id ∧ q.name = c.name)
      ∧ (∀ (P : StarEntity → Prop) (eid : Uid), eid ≠ e.id →
          (∃ b' ∈ s.beings, b'.id = being
            ∧ ∃ m ∈ b'.entities, m.id = eid ∧ P m) →
          ∃ b' ∈ s1.beings, b'.id = being
            ∧ ∃ m ∈ b'.entities, m.id = eid ∧ P m)
      ∧ (∀ id' : Uid, (∃ b ∈ s.beings, b.id = id') →
          ∃ b ∈ s1.beings, b.id = id') := by
  rcases hw : lookupA wid s.worlds with _ | w
  · rw [SS.developEntityStep, hw] at hok
    exact absurd hok (by simp)
  · rw [SS.developEntityStep, hw] at hok
    obtain rfl := (Option.some.inj hok).symm
    obtain ⟨b₀, hb₀, hb₀id⟩ := HB
    obtain ⟨b₁, hf⟩ : ∃ b₁, s.beings.find? (fun b => b.id == being)
        = some b₁ :=
      find?_isSome_of_mem hb₀ (by simpa using hb₀id)
    obtain ⟨l₁, l₂, hsplit, hl₁, hpb₁, hpush⟩ :=
      find?_modifyFirst_split hf
        (fun b => { b with entities := b.entities ++ [SS.devMirror wid e] })
    have hb₁id : b₁.id = being := by simpa using hpb₁
    have hBeq : SS.pushMirror being (SS.devMirror wid e) s.beings
        = l₁ ++ { b₁ with entities := b₁.entities ++ [SS.devMirror wid e] }
            :: l₂ := by
      rw [SS.pushMirror]; exact hpush
    have hB2 : modifyFirst (fun b => b.id == being)
        (fun b => { b with
          entities := modifyFirst (fun m => m.id == e.id)
            (fun m => { m with properties := SS.devProps wid e })
            b.entities })
        (SS.pushMirror being (SS.devMirror wid e) s.beings)
        = l₁ ++ ({ b₁ with
            entities := modifyFirst (fun m => m.id == e.id)
              (fun m => { m with properties := SS.devProps wid e })
              (b₁.entities ++ [SS.devMirror wid e]) }) :: l₂ := by
      rw [hBeq]
      exact modifyFirst_append_first _ l₂ hl₁ (by simpa using hb₁id)
    refine ⟨w, rfl, rfl, rfl, ?_, ?_, ?_⟩
    · -- establishment: mirror for e carrying every component id/name
      intro c hc
      show ∃ b' ∈ modifyFirst (fun b => b.id == being)
          (fun b => { b with
            entities := modifyFirst (fun m => m.id == e.id)
              (fun m => { m with properties := SS.devProps wid e })
              b.entities })
          (SS.pushMirror being (SS.devMirror wid e) s.beings), _
      rw [hB2]
      obtain ⟨m₀, hfm⟩ : ∃ m₀, (b₁.entities ++ [SS.devMirror wid e]).find?
          (fun m => m.id == e.id) = some m₀ :=
        find?_isSome_of_mem
          (List.mem_append_right _ (List.mem_singleton_self _))
          (by simp [SS.devMirror])
      obtain ⟨t₁, t₂, hts, htl, hpm₀, hmod⟩ :=
        find?_modifyFirst_split hfm
          (fun m => { m with properties := SS.devProps wid e })
      refine ⟨_, List.mem_append_right _ (List.mem_cons_self _ _), hb₁id, ?_⟩
      rw [hmod]
      refine ⟨_, List.mem_append_right _ (List.mem_cons_self _ _),
        by simpa using hpm₀, ?_⟩
      exact ⟨{ name := c.name, id := c.id
               location := { world := wid, entity := e.id } },
        List.mem_map_of_mem _ hc, rfl, rfl⟩
    · -- preservation of facts about mirrors of other entity ids
      intro P eid hne hfact
      obtain ⟨b', hb', hb'id, m, hm, hmid, hP⟩ := hfact
      show ∃ b' ∈ modifyFirst (fun b => b.id == being)
          (fun b => { b with
            entities := modifyFirst (fun m => m.id == e.id)
              (fun m => { m with properties := SS.devProps wid e })
              b.entities })
          (SS.pushMirror being (SS.devMirror wid e) s.beings), _
      rw [hB2]
      rw [hsplit] at hb'
      rcases List.mem_append.mp hb' with hb' | hb'
      · exact ⟨b', List.mem_append_left _ hb', hb'id, m, hm, hmid, hP⟩
      · rcases List.mem_cons.mp hb' with rfl | hb'
        · refine ⟨_, List.mem_append_right _ (List.mem_cons_self _ _),
            hb'id, ?_⟩
          refine ⟨m, ?_, hmid, hP⟩
          exact mem_modifyFirst (List.mem_append_left _ hm)
            (by simp [hmid, hne])
        · exact ⟨b', List.mem_append_right _ (List.mem_cons_of_mem _ hb'),
            hb'id, m, hm, hmid, hP⟩
    · -- roots are never removed
      intro id' hfact
      obtain ⟨b', hb', hb'id⟩ := hfact
      show ∃ b' ∈ modifyFirst (fun b => b.id == being)
          (fun b => { b with
            entities := modifyFirst (fun m => m.id == e.id)
              (fun m => { m with properties := SS.devProps wid e })
              b.entities })
          (SS.pushMirror being (SS.devMirror wid e) s.beings), _
      rw [hB2]
      rw [hsplit] at hb'
      rcases List.mem_append.mp hb' with hb' | hb'
      · exact ⟨b', List.mem_append_left _ hb', hb'id⟩
      · rcases List.mem_cons.mp hb' with rfl | hb'
        · exact ⟨_, List.mem_append_right _ (List.mem_cons_self _ _), hb'id⟩
        · exact ⟨b', List.mem_append_right _ (List.mem_cons_of_mem _ hb'),
            hb'id⟩

/-- Rehydrating a list of sub-object snapshots with pairwise-distinct ids:
tables are never written, untouched registry entries survive, mirror facts
about other ids survive, roots are never removed, and every snapshot
yields a mirror carrying its component ids/names plus a registry entry
with an empty location list. -/
theorem developEntities_spec {T : Type} (being wid : Uid) :
    ∀ (es : List (AscendedEntity T)) (s s' : SS T) (r : List Uid),
      SS.developEntities being wid es s = some (s', r) →
      (es.map AscendedEntity.id).Nodup →
      (∃ b ∈ s.beings, b.id = being) →
      ((∀ x ∈ s'.worlds, ∃ y ∈ s.worlds, x.2.components = y.2.components)
      ∧ (∀ wid2 w eid entry, lookupA wid2 s.worlds = some w →
          lookupA eid w.entities = some entry →
          eid ∉ es.map AscendedEntity.id →
          ∃ w', lookupA wid2 s'.worlds = some w'
            ∧ lookupA eid w'.entities = some entry
            ∧ w'.components = w.components)
      ∧ (∀ (P : StarEntity → Prop) (eid : Uid),
          eid ∉ es.map AscendedEntity.id →
          (∃ b' ∈ s.beings, b'.id = being
            ∧ ∃ m ∈ b'.entities, m.id = eid ∧ P m) →
          ∃ b' ∈ s'.beings, b'.id = being
            ∧ ∃ m ∈ b'.entities, m.id = eid ∧ P m)
      ∧ (∀ id' : Uid, (∃ b ∈ s.beings, b.id = id') →
          ∃ b ∈ s'.beings, b.id = id')
      ∧ (∀ e ∈ es, ∀ c ∈ e.components, ∃ b' ∈ s'.beings, b'.id = being
          ∧ ∃ m ∈ b'.entities, m.id = e.id
          ∧ ∃ q ∈ m.properties, q.id = c.id ∧ q.name = c.name)
      ∧ (∀ e ∈ es, ∃ w', lookupA wid s'.worlds = some w'
          ∧ lookupA e.id w'.entities
              = some { location := [], name := e.name })) := by
  intro es
  induction es with
  | nil =>
    intro s s' r hok _ _
    obtain ⟨rfl, rfl⟩ : s = s' ∧ [] = r := by
      simpa [SS.developEntities, Prod.mk.injEq] using hok
    refine ⟨fun x hx => ⟨x, hx, rfl⟩,
      fun wid2 w eid entry hw he _ => ⟨w, hw, he, rfl⟩,
      fun P eid _ h => h, fun id' h => h, by simp, by simp⟩
  | cons e rest ih =>
    intro s s' r hok hnd HB
    rcases hstep : SS.developEntityStep being wid s e with _ | s1
    · simp only [SS.developEntities, hstep] at hok
      exact absurd hok (by simp)
    · simp only [SS.developEntities, hstep] at hok
      rcases hrec : SS.developEntities being wid rest s1 with _ | r1
      · simp only [hrec] at hok
        exact absurd hok (by simp)
      · simp only [hrec] at hok
        obtain ⟨s2, r2⟩ := r1
        obtain ⟨rfl, rfl⟩ : s2 = s' ∧ e.id :: r2 = r := by
          simpa [Prod.mk.injEq] using hok
        obtain ⟨w, hw, hws1, hctr1, hestb, hpresP, hpresB⟩ :=
          developEntityStep_cases being wid s s1 e hstep HB
        have hnd2 : (e.id ∉ rest.map AscendedEntity.id)
            ∧ (rest.map AscendedEntity.id).Nodup := by
          simpa [List.nodup_cons] using hnd
        have HB1 : ∃ b ∈ s1.beings, b.id = being := hpresB being HB
        obtain ⟨ihW, ihWreg, ihM, ihB, ihEb, ihEc⟩ :=
          ih s1 s2 r2 hrec hnd2.2 HB1
        have hw2self : lookupA wid s1.worlds
            = some (World.set_entity w e.id e.name).1 := by
          rw [hws1]; exact lookupA_insertA_self _ _ _
        refine ⟨?_, ?_, ?_, ?_, ?_, ?_⟩
        · -- tables provenance
          intro x hx
          obtain ⟨y, hy, hxy⟩ := ihW x hx
          rw [hws1] at hy
          rcases mem_insertA hy with rfl | hy
          · exact ⟨(wid, w), lookupA_mem hw, hxy⟩
          · exact ⟨y, hy, hxy⟩
        · -- untouched registry entries
          intro wid2 w0 eid entry hw0 hentry hnin
          rw [List.map_cons, List.mem_cons] at hnin
          push_neg at hnin
          have hne : eid ≠ e.id := hnin.1
          have hnin2 : eid ∉ rest.map AscendedEntity.id := hnin.2
          by_cases hww : wid2 = wid
          · subst hww
            obtain rfl : w0 = w := by
              rw [hw0] at hw; exact Option.some.inj hw
            have hstep2 : lookupA eid
                ((World.set_entity w0 e.id e.name).1).entities
                = some entry := by
              show lookupA eid
                (insertA e.id { location := [], name := e.name } w0.entities)
                = some entry
              rw [lookupA_insertA_ne _ _ hne]
              exact hentry
            obtain ⟨w', hw', hentry', hcomp'⟩ :=
              ihWreg wid2 _ eid entry hw2self hstep2 hnin2
            exact ⟨w', hw', hentry', hcomp'⟩
          · have hkeep : lookupA wid2 s1.worlds = some w0 := by
              rw [hws1, lookupA_insertA_ne _ _ hww]
              exact hw0
            exact ihWreg wid2 w0 eid entry hkeep hentry hnin2
        · -- mirror facts about other ids
          intro P eid hnin hfact
          rw [List.map_cons, List.mem_cons] at hnin
          push_neg at hnin
          exact ihM P eid hnin.2 (hpresP P eid hnin.1 hfact)
        · -- roots never removed
          intro id' h
          exact ihB id' (hpresB id' h)
        · -- component mirrors exist for every processed snapshot
          intro e' he' c hc
          rcases List.mem_cons.mp he' with rfl | he'
          · exact ihM
              (fun m => ∃ q ∈ m.properties, q.id = c.id ∧ q.name = c.name)
              e'.id hnd2.1 (hestb c hc)
          · exact ihEb e' he' c hc
        · -- empty-location registry entries for every processed snapshot
          intro e' he'
          rcases List.mem_cons.mp he' with rfl | he'
          · have hentry1 : lookupA e'.id
                ((World.set_entity w e'.id e'.name).1).entities
                = some { location := [], name := e'.name } := by
              show lookupA e'.id
                (insertA e'.id { location := [], name := e'.name } w.entities)
                = some _
              exact lookupA_insertA_self _ _ _
            obtain ⟨w', hw', hentry', _⟩ :=
              ihWreg wid _ e'.id _ hw2self hentry1 hnd2.1
            exact ⟨w', hw', hentry'⟩
          · exact ihEc e' he'

/-- Rehydrating a list of root snapshots whose sub-object ids are pairwise
distinct: the composition of `developEntities_spec` over the snapshot
list. -/
theorem developGo_spec {T : Type} (being : Uid) :
    ∀ (L : List (AscendedBeing T)) (choices : List Nat) (s s' : SS T)
      (r : List Uid),
      SS.developGo being L choices s = some (s', r) →
      ((L.flatMap (fun ab => ab.entities)).map AscendedEntity.id).Nodup →
      ((∀ x ∈ s'.worlds, ∃ y ∈ s.worlds, x.2.components = y.2.components)
      ∧ (∀ wid2 w eid entry, lookupA wid2 s.worlds = some w →
          lookupA eid w.entities = some entry →
          eid ∉ (L.flatMap (fun ab => ab.entities)).map AscendedEntity.id →
          ∃ w', lookupA wid2 s'.worlds = some w'
            ∧ lookupA eid w'.entities = some entry
            ∧ w'.components = w.components)
      ∧ (∀ (P : StarEntity → Prop) (eid : Uid),
          eid ∉ (L.flatMap (fun ab => ab.entities)).map AscendedEntity.id →
          (∃ b' ∈ s.beings, b'.id = being
            ∧ ∃ m ∈ b'.entities, m.id = eid ∧ P m) →
          ∃ b' ∈ s'.beings, b'.id = being
            ∧ ∃ m ∈ b'.entities, m.id = eid ∧ P m)
      ∧ (∀ id' : Uid, (∃ b ∈ s.beings, b.id = id') →
          ∃ b ∈ s'.beings, b.id = id')
      ∧ (∀ ab ∈ L, ∀ e ∈ ab.entities, ∀ c ∈ e.components,
          ∃ b' ∈ s'.beings, b'.id = being ∧ ∃ m ∈ b'.entities, m.id = e.id
            ∧ ∃ q ∈ m.properties, q.id = c.id ∧ q.name = c.name)
      ∧ (∀ ab ∈ L, ∀ e ∈ ab.entities, ∃ wid2 w',
          lookupA wid2 s'.worlds = some w'
          ∧ lookupA e.id w'.entities
              = some { location := [], name := e.name })) := by
  intro L
  induction L with
  | nil =>
    intro choices s s' r hok _
    obtain ⟨rfl, rfl⟩ : s = s' ∧ [] = r := by
      simpa [SS.developGo, Prod.mk.injEq] using hok
    refine ⟨fun x hx => ⟨x, hx, rfl⟩,
      fun wid2 w eid entry hw he _ => ⟨w, hw, he, rfl⟩,
      fun P eid _ h => h, fun id' h => h, by simp, by simp⟩
  | cons ab rest ih =>
    intro choices s s' r hok hnd
    rcases hbs : SS.developBeingStep being s ab (choices.headD 0)
        with _ | s1ids
    · simp only [SS.developGo, hbs] at hok
      exact absurd hok (by simp)
    · simp only [SS.developGo, hbs] at hok
      obtain ⟨s1, ids⟩ := s1ids
      rcases hrec : SS.developGo being rest choices.tail s1 with _ | r1
      · simp only [hrec] at hok
        exact absurd hok (by simp)
      · simp only [hrec] at hok
        obtain ⟨s2, r2⟩ := r1
        obtain ⟨rfl, rfl⟩ : s2 = s' ∧ ids ++ r2 = r := by
          simpa [Prod.mk.injEq] using hok
        -- decompose the step into its world pick, root check and inner run
        rcases hg : s.worlds.get? ((choices.headD 0) % s.worlds.length)
            with _ | widpair
        · simp only [SS.developBeingStep, hg] at hbs
          exact absurd hbs (by simp)
        · simp only [SS.developBeingStep, hg] at hbs
          obtain ⟨wid0, w0⟩ := widpair
          rcases hfb : SS.findBeing s being with _ | b0
          · simp only [hfb] at hbs
            exact absurd hbs (by simp)
          · simp only [hfb] at hbs
            have HB : ∃ b ∈ s.beings, b.id = being := by
              refine ⟨b0, List.mem_of_find?_eq_some hfb, ?_⟩
              have := List.find?_some hfb
              simpa using this
            -- split the Nodup of all ids
            rw [List.flatMap_cons, List.map_append] at hnd
            rw [List.nodup_append] at hnd
            obtain ⟨nd1, nd2, ndisj⟩ := hnd
            obtain ⟨iW, iWreg, iM, iB, iEb, iEc⟩ :=
              developEntities_spec being wid0 ab.entities s s1 ids hbs nd1 HB
            obtain ⟨jW, jWreg, jM, jB, jEb, jEc⟩ :=
              ih choices.tail s1 s2 r2 hrec nd2
            refine ⟨?_, ?_, ?_, ?_, ?_, ?_⟩
            · intro x hx
              obtain ⟨y, hy, hxy⟩ := jW x hx
              obtain ⟨z, hz, hyz⟩ := iW y hy
              exact ⟨z, hz, hxy.trans hyz⟩
            · intro wid2 w eid entry hw he hnin
              rw [List.flatMap_cons, List.map_append, List.mem_append] at hnin
              push_neg at hnin
              obtain ⟨w1, hw1, he1, hc1⟩ :=
                iWreg wid2 w eid entry hw he hnin.1
              obtain ⟨w2, hw2, he2, hc2⟩ :=
                jWreg wid2 w1 eid entry hw1 he1 hnin.2
              exact ⟨w2, hw2, he2, hc2.trans hc1⟩
            · intro P eid hnin hfact
              rw [List.flatMap_cons, List.map_append, List.mem_append] at hnin
              push_neg at hnin
              exact jM P eid hnin.2 (iM P eid hnin.1 hfact)
            · intro id' h
              exact jB id' (iB id' h)
            · intro ab' hab' e he c hc
              rcases List.mem_cons.mp hab' with rfl | hab'
              · have heid : e.id ∉
                    (rest.flatMap (fun ab2 => ab2.entities)).map
                      AscendedEntity.id :=
                  fun hc2 => ndisj (List.mem_map_of_mem _ he) hc2
                exact jM (fun m => ∃ q ∈ m.properties,
                    q.id = c.id ∧ q.name = c.name)
                  e.id heid (iEb e he c hc)
              · exact jEb ab' hab' e he c hc
            · intro ab' hab' e he
              rcases List.mem_cons.mp hab' with rfl | hab'
              · have heid : e.id ∉
                    (rest.flatMap (fun ab2 => ab2.entities)).map
                      AscendedEntity.id :=
                  fun hc2 => ndisj (List.mem_map_of_mem _ he) hc2
                obtain ⟨w', hw', he'⟩ := iEc e he
                obtain ⟨w2, hw2, he2, _⟩ :=
                  jWreg wid0 w' e.id _ hw' he' heid
                exact ⟨wid0, w2, hw2, he2⟩
              · exact jEc ab' hab' e he

/-- C2: rehydration is structure-only. After a successful `develop_being`
of snapshots with pairwise-distinct sub-object ids: (1) no property id
becomes resolvable in any world's tables that was not already resolvable
— in particular the snapshot property ids are never written into any
table; (2) every property mirror appended carries the snapshot's original
identifier and name; (3) every rehydrated entity's registry record has an
empty location list, so no (variant-index, property-id) pair was appended
— the partition property-write path is never invoked. -/
theorem develop_being_structure_only {T : Type} (E : EnumInfo T) (s : SS T)
    (being : Uid) (L : List (AscendedBeing T)) (choices : List Nat)
    (s' : SS T) (r : List Uid)
    (hok : SS.develop_being E s being L choices = some (s', r))
    (hnd : ((L.flatMap (fun ab => ab.entities)).map AscendedEntity.id).Nodup) :
    (∀ p : Uid, (∀ x ∈ s.worlds, World.has_component x.2 p = false) →
      ∀ x ∈ s'.worlds, World.has_component x.2 p = false)
    ∧ (∀ ab ∈ L, ∀ e ∈ ab.entities, ∀ c ∈ e.components,
        ∃ b' ∈ s'.beings, b'.id = being ∧ ∃ m ∈ b'.entities, m.id = e.id
          ∧ ∃ q ∈ m.properties, q.id = c.id ∧ q.name = c.name)
    ∧ (∀ ab ∈ L, ∀ e ∈ ab.entities, ∃ wid2 w',
        lookupA wid2 s'.worlds = some w'
        ∧ lookupA e.id w'.entities = some { location := [], name := e.name }) := by
  rw [SS.develop_being] at hok
  obtain ⟨gW, _, _, _, gEb, gEc⟩ :=
    developGo_spec being L choices (SS.ensureWorld E s) s' r hok hnd
  refine ⟨?_, gEb, gEc⟩
  intro p hp x hx
  obtain ⟨y, hy, hxy⟩ := gW x hx
  rw [has_component_congr hxy]
  by_cases hempty : s.worlds.isEmpty
  · have hnil : s.worlds = [] := by simpa using hempty
    rw [SS.ensureWorld, if_pos hempty, SS.create_world] at hy
    simp only [hnil, insertA_nil] at hy
    rcases List.mem_singleton.mp hy with rfl
    exact has_component_new s.ctr E.vc p
  · rw [SS.ensureWorld, if_neg hempty] at hy
    exact hp y hy

/-- The state after rehydrating the scenario snapshot into a fresh store
under root "x" (the C1 run). -/
def c2state : SS Edif :=
  ((SS.develop_being E2 (SS.conceive_being (SS.new Edif) "x").1 0
      scenarioSnap [0]).getD (SS.new Edif, [])).1

/-- Witness for C2: on the rehydrated scenario store, property id 3 is in
no world's tables, the mirror of entity 2 carries property mirror
(3, "greeting"), and entity 2's registry record has an empty location
list. -/
theorem develop_being_structure_only_witness :
    (∀ x ∈ c2state.worlds, World.has_component x.2 3 = false)
    ∧ (∃ b' ∈ c2state.beings, b'.id = 0 ∧ ∃ m ∈ b'.entities, m.id = 2
        ∧ ∃ q ∈ m.properties, q.id = 3 ∧ q.name = "greeting")
    ∧ (∃ wid2 w', lookupA wid2 c2state.worlds = some w'
        ∧ lookupA 2 w'.entities = some { location := [], name := "s" }) := by
  have h := develop_being_structure_only E2
    (SS.conceive_being (SS.new Edif) "x").1 0 scenarioSnap [0]
    c2state [2] (by decide) (by decide)
  refine ⟨h.1 3 (by decide), ?_, ?_⟩
  · exact h.2.1
      ({ name := "r"
         id := 0
         entities := [{ name := "s"
                        id := 2
                        components := [{ name := "greeting"
                                         id := 3
                                         data := Edif.text "hello" }] }] })
      (by decide)
      ({ name := "s"
         id := 2
         components := [{ name := "greeting"
                          id := 3
                          data := Edif.text "hello" }] })
      (by decide)
      ({ name := "greeting"
         id := 3
         data := Edif.text "hello" })
      (by decide)
  · exact h.2.2
      ({ name := "r"
         id := 0
         entities := [{ name := "s"
                        id := 2
                        components := [{ name := "greeting"
                                         id := 3
                                         data := Edif.text "hello" }] }] })
      (by decide)
      ({ name := "s"
         id := 2
         components := [{ name := "greeting"
                          id := 3
                          data := Edif.text "hello" }] })
      (by decide)

/-! ## Replacement semantics of `constitute_being` (name collision) -/

theorem find?_of_filter_eq_single {α : Type} {p : α → Bool} {l : List α}
    {a : α} (h : l.filter p = [a]) : l.find? p = some a := by
  induction l with
  | nil => exact absurd h (by simp)
  | cons b t ih =>
    rcases hb : p b with _ | _
    · rw [List.filter_cons, if_neg (by simp [hb])] at h
      rw [List.find?_cons_of_neg _ (by simp [hb])]
      exact ih h
    · rw [List.filter_cons, if_pos hb] at h
      obtain ⟨rfl, -⟩ : b = a ∧ t.filter p = [] := by
        simpa using h
      exact List.find?_cons_of_pos _ hb

theorem filter_of_filter_eq_single {α : Type} {p : α → Bool} {l : List α}
    {a : α} (h : l.filter p = [a]) :
    ∀ x ∈ l, x ≠ a → p x = false := by
  induction l with
  | nil => simp
  | cons b t ih =>
    intro x hx hne
    rcases hb : p b with _ | _
    · rw [List.filter_cons, if_neg (by simp [hb])] at h
      rcases List.mem_cons.mp hx with rfl | hx
      · exact hb
      · exact ih h x hx hne
    · rw [List.filter_cons, if_pos hb] at h
      obtain ⟨rfl, ht⟩ : b = a ∧ t.filter p = [] := by simpa using h
      rcases List.mem_cons.mp hx with rfl | hx
      · exact absurd rfl hne
      · rcases hq : p x with _ | _
        · rfl
        · exact absurd (List.mem_filter.mpr ⟨hx, hq⟩) (by simp [ht])

theorem find?_append_first {α : Type} {p : α → Bool} {l₁ : List α} {a : α}
    (l₂ : List α) (h₁ : ∀ x ∈ l₁, p x = false) (ha : p a = true) :
    (l₁ ++ a :: l₂).find? p = some a := by
  induction l₁ with
  | nil => simpa using List.find?_cons_of_pos _ ha
  | cons b t ih =>
    rw [List.cons_append,
      List.find?_cons_of_neg _ (by simp [h₁ b (List.mem_cons_self _ _)])]
    exact ih (fun x hx => h₁ x (List.mem_cons_of_mem _ hx))

/-- `has_component` as a statement about table positions. -/
theorem has_component_iff {T : Type} (w : World T) (c : Uid) :
    World.has_component w c = true
      ↔ ∃ j tbl, w.components.get? j = some tbl
          ∧ (lookupA c tbl).isSome = true := by
  rw [World.has_component, List.any_eq_true]
  constructor
  · rintro ⟨tbl, htbl, hc⟩
    obtain ⟨j, hj⟩ := List.get_of_mem htbl
    exact ⟨j, tbl, by rw [List.get?_eq_get j.isLt, hj], hc⟩
  · rintro ⟨j, tbl, hj, hc⟩
    exact ⟨tbl, List.get?_mem hj, hc⟩

/-- With pairwise-distinct keys, membership in an insert-or-replace
result means being the new entry or an old entry with a different key. -/
theorem mem_insertA_nodup {α : Type} {x : Uid × α} {k : Uid} {v : α} :
    ∀ {l : List (Uid × α)}, (l.map Prod.fst).Nodup → x ∈ insertA k v l →
      x = (k, v) ∨ (x ∈ l ∧ x.1 ≠ k) := by
  intro l
  induction l with
  | nil =>
    intro _ hx
    exact Or.inl (by simpa using hx)
  | cons hd t ih =>
    intro hnd hx
    obtain ⟨k', v'⟩ := hd
    simp only [List.map_cons, List.nodup_cons] at hnd
    by_cases hk : k' = k
    · subst hk
      rw [insertA_cons, if_pos rfl] at hx
      rcases List.mem_cons.mp hx with rfl | hx
      · exact Or.inl rfl
      · refine Or.inr ⟨List.mem_cons_of_mem _ hx, ?_⟩
        intro hc
        exact hnd.1 (hc ▸ List.mem_map_of_mem Prod.fst hx)
    · rw [insertA_cons, if_neg hk] at hx
      rcases List.mem_cons.mp hx with rfl | hx
      · exact Or.inr ⟨List.mem_cons_self _ _, hk⟩
      · rcases ih hnd.2 hx with h | ⟨hm, hne⟩
        · exact Or.inl h
        · exact Or.inr ⟨List.mem_cons_of_mem _ hm, hne⟩

/-- With pairwise-distinct keys, membership determines the lookup. -/
theorem lookupA_of_mem_nodup {α : Type} {x : Uid × α} :
    ∀ {l : List (Uid × α)}, (l.map Prod.fst).Nodup → x ∈ l →
      lookupA x.1 l = some x.2 := by
  intro l
  induction l with
  | nil => intro _ hx; exact absurd hx (by simp)
  | cons hd t ih =>
    intro hnd hx
    obtain ⟨k', v'⟩ := hd
    simp only [List.map_cons, List.nodup_cons] at hnd
    rcases List.mem_cons.mp hx with rfl | hx
    · simp
    · rw [lookupA_cons, if_neg ?_]
      · exact ih hnd.2 hx
      · intro hc
        exact hnd.1 (hc ▸ List.mem_map_of_mem Prod.fst hx)

theorem length_insertA_mem {α : Type} {k : Uid} (v : α)
    {l : List (Uid × α)} (h : k ∈ l.map Prod.fst) :
    (insertA k v l).length = l.length := by
  have := keys_insertA k v l
  rw [if_pos h] at this
  have h2 := congrArg List.length this
  simpa using h2

/-- Survivor provenance through `removeLocs`: a key still resolvable in a
table afterwards was resolvable there before, and its pair was not in the
removed location list. -/
theorem removeLocs_lookup {T : Type} :
    ∀ (locs : List (Nat × Uid)) (comps comps' : List (CompMap T)),
      World.removeLocs locs comps = some comps' →
      ∀ j q tbl', comps'.get? j = some tbl' → (lookupA q tbl').isSome = true →
      ∃ tbl, comps.get? j = some tbl ∧ (lookupA q tbl).isSome = true
        ∧ (j, q) ∉ locs := by
  intro locs
  induction locs with
  | nil =>
    intro comps comps' hok j q tbl' hj hq
    obtain rfl : comps = comps' := by simpa [World.removeLocs] using hok
    exact ⟨tbl', hj, hq, by simp⟩
  | cons pr rest ih =>
    intro comps comps' hok j q tbl' hj hq
    obtain ⟨i, c⟩ := pr
    rcases hg : comps.get? i with _ | tbl0
    · rw [World.removeLocs, hg] at hok
      exact absurd hok (by simp)
    · rw [World.removeLocs, hg] at hok
      obtain ⟨tbl1, h1, hq1, hnin⟩ :=
        ih (comps.set i (eraseA c tbl0)) comps' hok j q tbl' hj hq
      by_cases hij : i = j
      · subst hij
        have hset : (comps.set i (eraseA c tbl0)).get? i
            = some (eraseA c tbl0) := by
          have hlt : i < comps.length := by
            by_contra hcon
            rw [List.get?_eq_none.mpr (by omega)] at hg
            exact Option.noConfusion hg
          rw [List.get?_set_eq_of_lt _ hlt]
        rw [hset] at h1
        obtain rfl : eraseA c tbl0 = tbl1 := Option.some.inj h1
        rw [lookupA_eraseA] at hq1
        by_cases hqc : q = c
        · rw [if_pos hqc] at hq1
          exact absurd hq1 (by simp)
        · rw [if_neg hqc] at hq1
          refine ⟨tbl0, hg, hq1, ?_⟩
          intro hmem
          rcases List.mem_cons.mp hmem with hc | hc
          · exact hqc (by simpa using congrArg Prod.snd hc)
          · exact hnin hc
      · have hset : (comps.set i (eraseA c tbl0)).get? j = comps.get? j :=
          List.get?_set_ne _ _ hij
        rw [hset] at h1
        refine ⟨tbl1, h1, hq1, ?_⟩
        intro hmem
        rcases List.mem_cons.mp hmem with hc | hc
        · exact hij (by simpa using (congrArg Prod.fst hc).symm)
        · exact hnin hc

/-- C7: attaching a second sub-object with an already-used name to a root
first removes the previous sub-object's partition entity together with
every property referenced by its location list, then creates the
replacement; afterwards the root has exactly one mirror with that name,
and every property id of the removed sub-object is unresolvable via
`has_component` in every world. Hypotheses: the root's first match is `b`,
exactly one of its mirrors is named `n` (namely `m`, backed by entity
`ent` of world `w`), the world is consistent (count = registered entities,
location indices in range, distinct world keys), and every table
occurrence of each of `m`'s property ids is in `w` and covered by `ent`'s
location list. -/
theorem constitute_being_replaces_same_name {T : Type} (E : EnumInfo T)
    (s : SS T) (B : Uid) (n : String) (choice : Nat) (b : Being)
    (m : StarEntity) (w : World T) (ent : Entity)
    (hb : SS.findBeing s B = some b)
    (hone : b.entities.filter (fun m2 => m2.name == n) = [m])
    (hw : lookupA m.location.world s.worlds = some w)
    (hent : lookupA m.id w.entities = some ent)
    (hcount : w.entitiesCount = w.entities.length)
    (hidx : ∀ pr ∈ ent.location, pr.1 < w.components.length)
    (hwnd : (s.worlds.map Prod.fst).Nodup)
    (hcov : ∀ q ∈ m.properties,
      (∀ z ∈ s.worlds, z.1 ≠ m.location.world →
        World.has_component z.2 q.id = false)
      ∧ (∀ pr ∈ w.components.enum, (lookupA q.id pr.2).isSome = true →
          (pr.1, q.id) ∈ ent.location)) :
    ∃ s' newId, SS.constitute_being E s B n choice = some (s', newId)
      ∧ (∃ b', SS.findBeing s' B = some b'
          ∧ (b'.entities.filter (fun m2 => m2.name == n)).length = 1)
      ∧ ∀ q ∈ m.properties, ∀ x ∈ s'.worlds,
          World.has_component x.2 q.id = false := by
  have hnnil : s.worlds ≠ [] := by
    intro hc; rw [hc] at hw; exact Option.noConfusion hw
  have hempty : s.worlds.isEmpty = false := by
    rcases hq : s.worlds.isEmpty with _ | _
    · rfl
    · exact absurd (List.isEmpty_iff.mp hq) hnnil
  have hens : SS.ensureWorld E s = s := by
    rw [SS.ensureWorld, hempty]
    simp
  have hfind_m : b.entities.find? (fun m2 => m2.name == n) = some m :=
    find?_of_filter_eq_single hone
  obtain ⟨comps', hrl, hlen, hremok⟩ :=
    remove_entity_ok w m.id ent hent hidx hcount
  set wrem : World T :=
    { w with components := comps'
             entities := w.entities.filter (fun p => p.1 ≠ m.id)
             entitiesCount := w.entitiesCount - 1 } with hwrem
  set s2 : SS T :=
    { s with
        worlds := insertA m.location.world wrem s.worlds
        beings := modifyFirst (fun b' => b'.id == B)
          (fun b' => { b' with
            entities := b'.entities.filter (fun e => e.name ≠ n) })
          s.beings } with hs2
  have hdet : SS.detachSameName s B n = some s2 := by
    simp only [SS.detachSameName, hb, hfind_m, hw, hremok, Option.map_some']
  have hmwkey : m.location.world ∈ s.worlds.map Prod.fst :=
    (lookupA_isSome_iff _ _).mp (by rw [hw]; rfl)
  have hlen2 : s2.worlds.length = s.worlds.length :=
    length_insertA_mem wrem hmwkey
  have hpos : 0 < s2.worlds.length := by
    rw [hlen2]
    exact List.length_pos.mpr hnnil
  have hlt : choice % s2.worlds.length < s2.worlds.length :=
    Nat.mod_lt _ hpos
  obtain ⟨pr, hg⟩ : ∃ pr, s2.worlds.get? (choice % s2.worlds.length)
      = some pr := by
    rcases hq : s2.worlds.get? (choice % s2.worlds.length) with _ | pr
    · exact absurd hlt (by simpa using List.get?_eq_none.mp hq)
    · exact ⟨pr, rfl⟩
  obtain ⟨widp, wp⟩ := pr
  have hres : SS.constitute_being E s B n choice = some
      ({ s2 with
          worlds := insertA widp
            { wp with
                entities := insertA s2.ctr { location := [], name := n }
                  wp.entities
                entitiesCount := wp.entitiesCount + 1 }
            s2.worlds
          beings := SS.pushMirror B
            { location := { world := widp, entity := s2.ctr }
              id := s2.ctr, name := n, properties := [] }
            s2.beings
          ctr := s2.ctr + 1 }, s2.ctr) := by
    simp only [SS.constitute_being, hens, hdet, hg, World.create_entity]
  refine ⟨_, s2.ctr, hres, ?_, ?_⟩
  · -- exactly one mirror named n on the root
    obtain ⟨l₁, l₂, hsplit, hl₁, hpb, hmod⟩ :=
      find?_modifyFirst_split hb
        (fun b' => { b' with
          entities := b'.entities.filter (fun e => e.name ≠ n) })
    have hpush : SS.pushMirror B
        { location := { world := widp, entity := s2.ctr }
          id := s2.ctr, name := n, properties := [] } s2.beings
        = l₁ ++ ({ b with
            entities := b.entities.filter (fun e => e.name ≠ n)
              ++ [{ location := { world := widp, entity := s2.ctr }
                    id := s2.ctr, name := n, properties := [] }] }
            : Being) :: l₂ := by
      show modifyFirst _ _ s2.beings = _
      have : s2.beings = l₁ ++ ({ b with
          entities := b.entities.filter (fun e => e.name ≠ n) }) :: l₂ := by
        rw [hs2]
        exact hmod
      rw [this]
      exact modifyFirst_append_first _ l₂ hl₁ (by simpa using hpb)
    refine ⟨{ b with
        entities := b.entities.filter (fun e => e.name ≠ n)
          ++ [{ location := { world := widp, entity := s2.ctr }
                id := s2.ctr, name := n, properties := [] }] }, ?_, ?_⟩
    · show List.find? _ (SS.pushMirror B _ s2.beings) = _
      rw [hpush]
      exact find?_append_first l₂ hl₁ (by simpa using hpb)
    · rw [List.filter_append]
      have h1 : (b.entities.filter (fun e => e.name ≠ n)).filter
          (fun m2 => m2.name == n) = [] := by
        rw [List.filter_eq_nil_iff]
        intro x hx
        have := (List.mem_filter.mp hx).2
        simp only [decide_not] at this
        simp only [ne_eq, Bool.not_eq_true'] at this
        simp only [Bool.not_eq_true]
        simpa using of_decide_eq_false this
      rw [h1]
      simp
  · -- the removed sub-object's property ids resolve nowhere
    intro q hq x hx
    have hnd2 : ((insertA m.location.world wrem s.worlds).map
        Prod.fst).Nodup := by
      rw [keys_insertA, if_pos hmwkey]
      exact hwnd
    have hbase : ∀ z ∈ insertA m.location.world wrem s.worlds,
        World.has_component z.2 q.id = false := by
      intro z hz
      rcases mem_insertA_nodup hwnd hz with rfl | ⟨hzmem, hzne⟩
      · -- the detached world: all covered occurrences were removed
        rcases hcc : World.has_component wrem q.id with _ | _
        · rfl
        · exfalso
          obtain ⟨j, tbl', hj, hqt⟩ := (has_component_iff _ _).mp hcc
          obtain ⟨tbl, hjw, hqw, hnin⟩ :=
            removeLocs_lookup ent.location w.components comps' hrl
              j q.id tbl' hj hqt
          exact hnin ((hcov q hq).2 (j, tbl)
            (List.mk_mem_enum_iff_get?.mpr hjw) hqw)
      · -- any other world never held these ids
        exact (hcov q hq).1 z hzmem hzne
    rcases mem_insertA_nodup hnd2 hx with rfl | ⟨hxmem, -⟩
    · have hwp : (widp, wp) ∈ insertA m.location.world wrem s.worlds :=
        List.get?_mem hg
      have := hbase (widp, wp) hwp
      simpa [World.has_component] using this
    · exact hbase x hxmem

/-- Witness for C7: re-attaching "s" to the scenario root removes entity 2
and property 3 from world 1, leaves exactly one mirror named "s", and
property 3 resolves in no world. -/
theorem constitute_being_replaces_same_name_witness :
    ∃ s' newId, SS.constitute_being E2 scenario3 0 "s" 0 = some (s', newId)
      ∧ (∃ b', SS.findBeing s' 0 = some b'
          ∧ (b'.entities.filter (fun m2 => m2.name == "s")).length = 1)
      ∧ ∀ q ∈ ([{ name := "greeting"
                  id := 3
                  location := { world := 1, entity := 3 } }]
          : List StarEntityProperty), ∀ x ∈ s'.worlds,
          World.has_component x.2 q.id = false :=
  constitute_being_replaces_same_name E2 scenario3 0 "s" 0
    ({ id := 0
       entities := [{ location := { world := 1, entity := 2 }
                      id := 2
                      name := "s"
                      properties := [{ name := "greeting"
                                       id := 3
                                       location := { world := 1
                                                     entity := 3 } }] }]
       name := "r" })
    ({ location := { world := 1, entity := 2 }
       id := 2
       name := "s"
       properties := [{ name := "greeting"
                        id := 3
                        location := { world := 1, entity := 3 } }] })
    ({ id := 1
       indexes := [0, 1]
       entitiesCount := 1
       entities := [(2, { location := [(0, 3)], name := "s" })]
       components := [[(3, { name := "greeting"
                             data := Edif.text "hello" })], []] })
    ({ location := [(0, 3)], name := "s" })
    (by decide) (by decide) (by decide) (by decide) (by decide) (by decide)
    (by decide) (by decide)

/-! ## Invariant I2: mirror/location consistency (claim C3) -/

/-- All sub-object mirrors of the store. -/
def mirrors {T : Type} (s : SS T) : List StarEntity :=
  s.beings.flatMap Being.entities

/-- The property ids of a mirror. -/
def propIds (m : StarEntity) : List Uid :=
  m.properties.map StarEntityProperty.id

/-- The location list and a property-mirror list carry the same set of
property ids. -/
def sameIds (loc : List (Nat × Uid)) (props : List StarEntityProperty) :
    Prop :=
  ∀ u : Uid, u ∈ loc.map Prod.snd ↔ u ∈ props.map StarEntityProperty.id

/-- A mirror is backed by a live registry record whose location-id set
matches the mirror's property-id set (invariant I2 for one mirror). -/
def MirrorOk {T : Type} (s : SS T) (m : StarEntity) : Prop :=
  ∃ w ent, lookupA m.location.world s.worlds = some w
    ∧ lookupA m.id w.entities = some ent
    ∧ sameIds ent.location m.properties

/-- All identifiers the counter has already produced for mirrors are below
the counter. -/
def UidsBound {T : Type} (s : SS T) : Prop :=
  ∀ m ∈ mirrors s, m.id < s.ctr ∧ ∀ q ∈ m.properties, q.id < s.ctr

/-- The reachable-state invariant: counter freshness, distinct world keys,
distinct mirror entity ids, globally distinct mirror property ids, and per-
mirror backing consistency. -/
def SSInv {T : Type} (s : SS T) : Prop :=
  UidsBound s
  ∧ (s.worlds.map Prod.fst).Nodup
  ∧ ((mirrors s).map StarEntity.id).Nodup
  ∧ ((mirrors s).flatMap propIds).Nodup
  ∧ ∀ m ∈ mirrors s, MirrorOk s m

/-- One public mutation of the root store (successful outcomes only),
with `set_property` restricted to updates of a property id already on the
addressed mirror. -/
inductive COp {T : Type} (E : EnumInfo T) : SS T → SS T → Prop where
  | conceive (s : SS T) (name : String) :
      COp E s (SS.conceive_being s name).1
  | constitute (s : SS T) (being : Uid) (name : String) (choice : Nat)
      (s' : SS T) (r : Uid)
      (h : SS.constitute_being E s being name choice = some (s', r)) :
      COp E s s'
  | addProp (s : SS T) (being entity : Uid) (v : T) (name : String)
      (s' : SS T) (r : Uid)
      (h : SS.add_property E s being entity v name = Res.ok (s', r)) :
      COp E s s'
  | setProp (s : SS T) (being entity p : Uid) (v : T) (name : String)
      (s' : SS T) (r : Uid)
      (hmem : ∃ bb m2, SS.findBeing s being = some bb
        ∧ bb.entities.find? (fun m => m.id == entity) = some m2
        ∧ p ∈ m2.properties.map StarEntityProperty.id)
      (h : SS.set_property E s being entity p v name = some (s', r)) :
      COp E s s'
  | removeProp (s : SS T) (p : Uid) (s' : SS T)
      (h : SS.remove_property s p = some s') :
      COp E s s'

/-- Reachability from a fresh root store by the mutations above. -/
def ReachC {T : Type} (E : EnumInfo T) (s : SS T) : Prop :=
  Relation.ReflTransGen (COp E) (SS.new T) s

/-! Auxiliary list lemmas for the invariant proofs. -/

theorem mem_map_filter_ne {α : Type} (f : α → Uid) (p u : Uid)
    (l : List α) :
    u ∈ (l.filter (fun a => f a ≠ p)).map f ↔ u ∈ l.map f ∧ u ≠ p := by
  constructor
  · intro h
    obtain ⟨a, ha, rfl⟩ := List.mem_map.mp h
    obtain ⟨hal, hap⟩ := List.mem_filter.mp ha
    exact ⟨List.mem_map_of_mem f hal, by simpa using hap⟩
  · rintro ⟨h, hne⟩
    obtain ⟨a, ha, rfl⟩ := List.mem_map.mp h
    exact List.mem_map_of_mem f
      (List.mem_filter.mpr ⟨ha, by simpa using hne⟩)

theorem map_modifyFirst_eq {α β : Type} (g : α → β) {p : α → Bool}
    {f : α → α} (hf : ∀ a, g (f a) = g a) :
    ∀ l : List α, (modifyFirst p f l).map g = l.map g := by
  intro l
  induction l with
  | nil => rfl
  | cons a t ih =>
    by_cases hp : p a
    · simp [modifyFirst, hp, hf a]
    · simp [modifyFirst, hp, ih]

/-- Split a list at the first element satisfying a predicate. -/
theorem exists_split_first {α : Type} {p : α → Bool} {l : List α} {a : α}
    (ha : a ∈ l) (hpa : p a = true) :
    ∃ l₁ b l₂, l = l₁ ++ b :: l₂ ∧ (∀ x ∈ l₁, p x = false) ∧ p b = true := by
  obtain ⟨b, hb⟩ := find?_isSome_of_mem ha hpa
  obtain ⟨l₁, l₂, hs, h₁, h₂, -⟩ := find?_modifyFirst_split hb id
  exact ⟨l₁, b, l₂, hs, h₁, h₂⟩

theorem nodup_middle_snoc {c : Uid} {X Y Z : List Uid}
    (h : (X ++ Y ++ Z).Nodup) (hc : c ∉ X ++ Y ++ Z) :
    (X ++ (Y ++ [c]) ++ Z).Nodup := by
  have e1 : X ++ (Y ++ [c]) ++ Z = (X ++ Y) ++ c :: Z := by
    simp [List.append_assoc]
  rw [e1]
  have hp : ((X ++ Y) ++ c :: Z).Perm (c :: ((X ++ Y) ++ Z)) :=
    List.perm_middle
  refine hp.symm.nodup ?_
  rw [List.nodup_cons]
  constructor
  · simpa using hc
  · simpa [List.append_assoc] using h

/-- A fresh store satisfies the invariant. -/
theorem inv_new (T : Type) : SSInv (SS.new T) := by
  refine ⟨?_, ?_, ?_, ?_, ?_⟩ <;>
    simp [UidsBound, mirrors, SS.new, SSInv]

/-- `conceive_being` preserves the invariant (the new root has no
mirrors). -/
theorem inv_conceive {T : Type} (s : SS T) (name : String) (h : SSInv s) :
    SSInv (SS.conceive_being s name).1 := by
  obtain ⟨hU, hW, hD, hP, hM⟩ := h
  have hmir : mirrors (SS.conceive_being s name).1 = mirrors s := by
    simp [mirrors, SS.conceive_being]
  refine ⟨?_, hW, ?_, ?_, ?_⟩
  · intro m hm
    rw [hmir] at hm
    obtain ⟨h1, h2⟩ := hU m hm
    exact ⟨Nat.lt_succ_of_lt h1, fun q hq => Nat.lt_succ_of_lt (h2 q hq)⟩
  · rw [hmir]; exact hD
  · rw [hmir]; exact hP
  · intro m hm
    rw [hmir] at hm
    exact hM m hm

/-- Decomposition of the two-level `modifyFirst` used by `add_property`
and `set_property` to target the first matching root and its first
matching mirror. -/
theorem beings_update_decomp {T : Type} (s : SS T) (B entity : Uid)
    (g : StarEntity → StarEntity) {b : Being} {m : StarEntity}
    (hfb : SS.findBeing s B = some b)
    (hfm : b.entities.find? (fun m2 => m2.id == entity) = some m) :
    ∃ L₁ L₂ M₁ M₂,
      s.beings = L₁ ++ b :: L₂
      ∧ b.entities = M₁ ++ m :: M₂
      ∧ (∀ x ∈ L₁, (x.id == B) = false) ∧ (b.id == B) = true
      ∧ (∀ x ∈ M₁, (x.id == entity) = false) ∧ (m.id == entity) = true
      ∧ modifyFirst (fun b2 => b2.id == B)
          (fun b2 => { b2 with
            entities := modifyFirst (fun m2 => m2.id == entity) g
              b2.entities })
          s.beings
        = L₁ ++ ({ b with entities := M₁ ++ g m :: M₂ }) :: L₂ := by
  obtain ⟨L₁, L₂, hsb, hl₁, hpb, hmodb⟩ :=
    find?_modifyFirst_split hfb
      (fun b2 => { b2 with
        entities := modifyFirst (fun m2 => m2.id == entity) g b2.entities })
  obtain ⟨M₁, M₂, hse, hm₁, hpm, hmode⟩ := find?_modifyFirst_split hfm g
  refine ⟨L₁, L₂, M₁, M₂, hsb, hse, hl₁, hpb, hm₁, hpm, ?_⟩
  rw [hmodb, hmode]

/-- Mirrors of the store after the two-level update, as a concatenation. -/
theorem mirrors_decomp {T : Type} (ws : List (Uid × World T))
    (L₁ L₂ : List Being) (b : Being) (c : Nat)
    (M : List StarEntity) :
    mirrors ({ worlds := ws
               beings := L₁ ++ ({ b with entities := M }) :: L₂
               ctr := c } : SS T)
      = L₁.flatMap Being.entities ++ M ++ L₂.flatMap Being.entities := by
  simp [mirrors, List.append_assoc]


theorem nodup_middle_not_mem {c : Uid} {X Y : List Uid}
    (h : (X ++ c :: Y).Nodup) : c ∉ X ∧ c ∉ Y := by
  rw [List.nodup_append] at h
  obtain ⟨-, hcY, hdisj⟩ := h
  rw [List.nodup_cons] at hcY
  exact ⟨fun hcX => hdisj hcX (List.mem_cons_self _ _), hcY.1⟩

theorem pid_lt_of_mem_flat {T : Type} {s : SS T} (hU : UidsBound s)
    {u : Uid} (hu : u ∈ (mirrors s).flatMap propIds) : u < s.ctr := by
  obtain ⟨m, hm, hq⟩ := List.mem_flatMap.mp hu
  obtain ⟨q, hqm, rfl⟩ := List.mem_map.mp hq
  exact (hU m hm).2 q hqm

theorem nodup_of_mem_flat {α : Type} {f : α → List Uid} {l : List α}
    (h : (l.flatMap f).Nodup) {x : α} (hx : x ∈ l) : (f x).Nodup := by
  induction l with
  | nil => exact absurd hx (by simp)
  | cons a t ih =>
    rw [List.flatMap_cons, List.nodup_append] at h
    rcases List.mem_cons.mp hx with rfl | hx
    · exact h.1
    · exact ih h.2.1 hx

/-- Replacing the middle block of a duplicate-free concatenation by a
duplicate-free block whose elements are old middle elements or globally
fresh keeps the concatenation duplicate-free. -/
theorem nodup_replace_middle {X Y Z Y' : List Uid}
    (h : (X ++ Y ++ Z).Nodup) (hY' : Y'.Nodup)
    (hsub : ∀ u ∈ Y', u ∈ Y ∨ u ∉ X ++ Y ++ Z) :
    (X ++ Y' ++ Z).Nodup := by
  rw [List.append_assoc, List.nodup_append] at h ⊢
  obtain ⟨hX, hYZ, hdisj⟩ := h
  rw [List.nodup_append] at hYZ
  obtain ⟨hY, hZ, hdYZ⟩ := hYZ
  refine ⟨hX, ?_, ?_⟩
  · rw [List.nodup_append]
    refine ⟨hY', hZ, ?_⟩
    intro u huY' huZ
    rcases hsub u huY' with h' | h'
    · exact hdYZ h' huZ
    · exact h' (by simp [huZ])
  · intro u huX huYZ
    rcases List.mem_append.mp huYZ with h' | h'
    · rcases hsub u h' with h2 | h2
      · exact hdisj huX (List.mem_append.mpr (Or.inl h2))
      · exact h2 (by simp [huX])
    · exact hdisj huX (List.mem_append.mpr (Or.inr h'))

theorem not_mem_right_of_nodup_triple {X Y Z : List Uid}
    (h : (X ++ Y ++ Z).Nodup) {u : Uid} (hY : u ∈ Y) (hZ : u ∈ Z) : False := by
  rw [List.append_assoc, List.nodup_append] at h
  obtain ⟨-, h2, -⟩ := h
  rw [List.nodup_append] at h2
  exact h2.2.2 hY hZ

theorem sublist_flatMap_mono {α β : Type} {l₁ l₂ : List α}
    (h : l₁.Sublist l₂) (f : α → List β) :
    (l₁.flatMap f).Sublist (l₂.flatMap f) := by
  induction h with
  | slnil => simp
  | cons a h ih =>
    rw [List.flatMap_cons]
    exact ih.trans (List.sublist_append_right _ _)
  | cons₂ a h ih =>
    rw [List.flatMap_cons, List.flatMap_cons]
    exact ih.append_left _

theorem lookupA_filter_key_ne {α : Type} {u k : Uid} (hne : u ≠ k) :
    ∀ l : List (Uid × α),
      lookupA u (l.filter (fun pr => pr.1 ≠ k)) = lookupA u l := by
  intro l
  induction l with
  | nil => rfl
  | cons hd t ih =>
    obtain ⟨k', v'⟩ := hd
    by_cases hk : k' = k
    · subst hk
      rw [List.filter_cons_of_neg (by simp), ih, lookupA_cons,
        if_neg (Ne.symm hne)]
    · rw [List.filter_cons_of_pos (by simp [hk])]
      by_cases hu : k' = u
      · subst hu
        rw [lookupA_cons, lookupA_cons, if_pos rfl, if_pos rfl]
      · rw [lookupA_cons, lookupA_cons, if_neg hu, if_neg hu, ih]

/-- Shared invariant-preservation core for `add_property`, `set_property`
and `remove_property`: rewriting one mirror in place and its backing world
at the target entity record preserves the invariant, provided the new
record's location-id set matches the new mirror's property-id set and every
new property id is an old one of that mirror or globally fresh. -/
theorem inv_update_core {T : Type} {s : SS T} (L₁ L₂ : List Being)
    (b : Being) (M₁ M₂ : List StarEntity) (m : StarEntity) {w : World T}
    (w1 : World T) (g : StarEntity → StarEntity) (newctr : Nat)
    (hsb : s.beings = L₁ ++ b :: L₂)
    (hse : b.entities = M₁ ++ m :: M₂)
    (hw : lookupA m.location.world s.worlds = some w)
    (inv : SSInv s)
    (hctr : s.ctr ≤ newctr)
    (hgid : (g m).id = m.id)
    (hgloc : (g m).location = m.location)
    (hgbound : ∀ q ∈ (g m).properties, q.id < newctr)
    (hw1lookup : ∀ u : Uid, u ≠ m.id →
      lookupA u w1.entities = lookupA u w.entities)
    (hrec : ∃ ent1, lookupA m.id w1.entities = some ent1
      ∧ sameIds ent1.location (g m).properties)
    (hYnodup : (propIds (g m)).Nodup)
    (hYsub : ∀ u ∈ propIds (g m),
      u ∈ propIds m ∨ u ∉ (mirrors s).flatMap propIds) :
    SSInv { worlds := insertA m.location.world w1 s.worlds
            beings := L₁ ++ ({ b with entities := M₁ ++ g m :: M₂ }) :: L₂
            ctr := newctr } := by
  obtain ⟨hU, hW, hD, hP, hM⟩ := inv
  have hm_old : mirrors s
      = L₁.flatMap Being.entities ++ (M₁ ++ m :: M₂)
        ++ L₂.flatMap Being.entities := by
    rw [mirrors, hsb]
    simp [hse]
  have hm_new : mirrors ({ worlds := insertA m.location.world w1 s.worlds
                           beings := L₁ ++ ({ b with
                             entities := M₁ ++ g m :: M₂ }) :: L₂
                           ctr := newctr } : SS T)
      = L₁.flatMap Being.entities ++ (M₁ ++ g m :: M₂)
        ++ L₂.flatMap Being.entities :=
    mirrors_decomp _ L₁ L₂ b newctr (M₁ ++ g m :: M₂)
  have hmemold : ∀ m' : StarEntity,
      (m' ∈ L₁.flatMap Being.entities ∨ m' ∈ M₁ ∨ m' ∈ M₂
        ∨ m' ∈ L₂.flatMap Being.entities) → m' ∈ mirrors s := by
    intro m' h'
    rw [hm_old]
    simp only [List.mem_append, List.mem_cons]
    tauto
  have hmmem : m ∈ mirrors s := by
    rw [hm_old]
    simp
  have hDsplit : m.id ∉ ((L₁.flatMap Being.entities).map StarEntity.id
        ++ M₁.map StarEntity.id)
      ∧ m.id ∉ (M₂.map StarEntity.id
        ++ (L₂.flatMap Being.entities).map StarEntity.id) := by
    apply nodup_middle_not_mem
    have h0 := hD
    rw [hm_old] at h0
    simpa [List.append_assoc] using h0
  have hidne : ∀ m', (m' ∈ L₁.flatMap Being.entities ∨ m' ∈ M₁
      ∨ m' ∈ M₂ ∨ m' ∈ L₂.flatMap Being.entities) → m'.id ≠ m.id := by
    intro m' h' hc
    rcases h' with h' | h' | h' | h'
    · exact hDsplit.1 (List.mem_append.mpr (Or.inl
        (by rw [← hc]; exact List.mem_map_of_mem StarEntity.id h')))
    · exact hDsplit.1 (List.mem_append.mpr (Or.inr
        (by rw [← hc]; exact List.mem_map_of_mem StarEntity.id h')))
    · exact hDsplit.2 (List.mem_append.mpr (Or.inl
        (by rw [← hc]; exact List.mem_map_of_mem StarEntity.id h')))
    · exact hDsplit.2 (List.mem_append.mpr (Or.inr
        (by rw [← hc]; exact List.mem_map_of_mem StarEntity.id h')))
  have hsplit : ∀ m' : StarEntity,
      m' ∈ L₁.flatMap Being.entities ++ (M₁ ++ g m :: M₂)
        ++ L₂.flatMap Being.entities →
      m' = g m ∨ (m' ∈ mirrors s ∧ m'.id ≠ m.id) := by
    intro m' hm'
    simp only [List.mem_append, List.mem_cons, or_assoc] at hm'
    rcases hm' with h' | h' | h' | h' | h'
    · exact Or.inr ⟨hmemold m' (Or.inl h'), hidne m' (Or.inl h')⟩
    · exact Or.inr ⟨hmemold m' (Or.inr (Or.inl h')),
        hidne m' (Or.inr (Or.inl h'))⟩
    · exact Or.inl h'
    · exact Or.inr ⟨hmemold m' (Or.inr (Or.inr (Or.inl h'))),
        hidne m' (Or.inr (Or.inr (Or.inl h')))⟩
    · exact Or.inr ⟨hmemold m' (Or.inr (Or.inr (Or.inr h'))),
        hidne m' (Or.inr (Or.inr (Or.inr h')))⟩
  refine ⟨?_, ?_, ?_, ?_, ?_⟩
  · -- counter bound
    intro m' hm'
    rw [hm_new] at hm'
    rcases hsplit m' hm' with rfl | ⟨hms, -⟩
    · refine ⟨?_, hgbound⟩
      rw [hgid]
      exact lt_of_lt_of_le (hU m hmmem).1 hctr
    · obtain ⟨h1, h2⟩ := hU m' hms
      exact ⟨lt_of_lt_of_le h1 hctr, fun q hq => lt_of_lt_of_le (h2 q hq) hctr⟩
  · -- world keys stay duplicate-free
    show ((insertA m.location.world w1 s.worlds).map Prod.fst).Nodup
    have hkmem : m.location.world ∈ s.worlds.map Prod.fst := by
      rw [← lookupA_isSome_iff]
      simp [hw]
    rw [keys_insertA, if_pos hkmem]
    exact hW
  · -- mirror ids stay duplicate-free
    show ((mirrors _).map StarEntity.id).Nodup
    rw [hm_new]
    have hmap : (L₁.flatMap Being.entities ++ (M₁ ++ g m :: M₂)
        ++ L₂.flatMap Being.entities).map StarEntity.id
        = (mirrors s).map StarEntity.id := by
      rw [hm_old]
      simp [hgid]
    rw [hmap]
    exact hD
  · -- property ids stay globally duplicate-free
    show ((mirrors _).flatMap propIds).Nodup
    rw [hm_new]
    have e1 : (mirrors s).flatMap propIds
        = ((L₁.flatMap Being.entities).flatMap propIds
            ++ M₁.flatMap propIds) ++ propIds m
          ++ (M₂.flatMap propIds
            ++ (L₂.flatMap Being.entities).flatMap propIds) := by
      rw [hm_old]
      simp [List.append_assoc]
    have e2 : (L₁.flatMap Being.entities ++ (M₁ ++ g m :: M₂)
        ++ L₂.flatMap Being.entities).flatMap propIds
        = ((L₁.flatMap Being.entities).flatMap propIds
            ++ M₁.flatMap propIds) ++ propIds (g m)
          ++ (M₂.flatMap propIds
            ++ (L₂.flatMap Being.entities).flatMap propIds) := by
      simp [List.append_assoc, propIds]
    rw [e2]
    have h1 : (((L₁.flatMap Being.entities).flatMap propIds
          ++ M₁.flatMap propIds) ++ propIds m
        ++ (M₂.flatMap propIds
          ++ (L₂.flatMap Being.entities).flatMap propIds)).Nodup := by
      rw [← e1]
      exact hP
    have h2 : ∀ u ∈ propIds (g m), u ∈ propIds m
        ∨ u ∉ ((L₁.flatMap Being.entities).flatMap propIds
            ++ M₁.flatMap propIds) ++ propIds m
          ++ (M₂.flatMap propIds
            ++ (L₂.flatMap Being.entities).flatMap propIds) := by
      intro u hu
      rcases hYsub u hu with h' | h'
      · exact Or.inl h'
      · right
        rw [← e1]
        exact h'
    exact nodup_replace_middle h1 hYnodup h2
  · -- every mirror stays backed
    intro m' hm'
    rw [hm_new] at hm'
    rcases hsplit m' hm' with rfl | ⟨hms, hne⟩
    · obtain ⟨ent1, hent1l, hent1s⟩ := hrec
      refine ⟨w1, ent1, ?_, ?_, hent1s⟩
      · show lookupA (g m).location.world
          (insertA m.location.world w1 s.worlds) = some w1
        rw [hgloc]
        exact lookupA_insertA_self _ _ _
      · rw [hgid]
        exact hent1l
    · obtain ⟨w0, ent0, hw0, hent0, hsame0⟩ := hM m' hms
      by_cases hkey : m'.location.world = m.location.world
      · have hw0w : w0 = w := by
          rw [hkey] at hw0
          rw [hw0] at hw
          exact Option.some.inj hw
        subst hw0w
        refine ⟨w1, ent0, ?_, ?_, hsame0⟩
        · show lookupA m'.location.world
            (insertA m.location.world w1 s.worlds) = some w1
          rw [hkey]
          exact lookupA_insertA_self _ _ _
        · rw [hw1lookup m'.id hne]
          exact hent0
      · refine ⟨w0, ent0, ?_, hent0, hsame0⟩
        show lookupA m'.location.world
          (insertA m.location.world w1 s.worlds) = some w0
        rw [lookupA_insertA_ne w1 s.worlds hkey]
        exact hw0

/-- A successful `add_property` preserves the invariant. -/
theorem inv_addProp {T : Type} (E : EnumInfo T) (s : SS T) (B entity : Uid)
    (v : T) (nm : String) (s' : SS T) (r : Uid)
    (hok : SS.add_property E s B entity v nm = Res.ok (s', r))
    (h : SSInv s) : SSInv s' := by
  have hinv := h
  obtain ⟨hU, hW, hD, hP, hM⟩ := h
  rcases hfb : SS.findBeing s B with _ | b
  · simp [SS.add_property, hfb] at hok
  rcases hfm : b.entities.find? (fun e => e.id == entity) with _ | m
  · simp [SS.add_property, hfb, hfm] at hok
  rcases hw : lookupA m.location.world s.worlds with _ | w
  · simp [SS.add_property, hfb, hfm, hw] at hok
  rcases hg : w.components[E.index v]? with _ | tbl
  · simp [SS.add_property, hfb, hfm, hw,
      World.add_component_to_entity, hg] at hok
  rcases hent : lookupA entity w.entities with _ | ent
  · simp [SS.add_property, hfb, hfm, hw,
      World.add_component_to_entity, hg, hent] at hok
  simp only [SS.add_property, hfb, hfm, hw, World.add_component_to_entity,
    List.get?_eq_getElem?, hg, hent, Res.ok.injEq, Prod.mk.injEq] at hok
  obtain ⟨hs', hr⟩ := hok
  subst hs'
  -- access the addressed mirror and its backing record
  have hmid : m.id = entity := by
    have := List.find?_some hfm
    simpa using this
  have hmmem : m ∈ mirrors s := by
    have hbmem : b ∈ s.beings := List.mem_of_find?_eq_some hfb
    have hmem' : m ∈ b.entities := List.mem_of_find?_eq_some hfm
    exact List.mem_flatMap.mpr ⟨b, hbmem, hmem'⟩
  obtain ⟨w0, ent0, hw0, hent0, hsame0⟩ := hM m hmmem
  have hw0w : w0 = w := by
    rw [hw0] at hw
    exact Option.some.inj hw
  subst hw0w
  have hent0e : ent0 = ent := by
    rw [hmid] at hent0
    rw [hent0] at hent
    exact Option.some.inj hent
  subst hent0e
  -- decompose the two-level mirror update
  obtain ⟨L₁, L₂, M₁, M₂, hsb, hse, hl₁, hpb, hm₁, hpm, hbeq⟩ :=
    beings_update_decomp s B entity
      (fun m2 => { m2 with properties := m2.properties ++
        [{ name := nm, id := s.ctr
           location := { world := m.location.world
                         entity := s.ctr } }] })
      hfb hfm
  rw [hbeq]
  have hprops : propIds ((fun m2 => { m2 with
      properties := m2.properties ++
        [{ name := nm, id := s.ctr
           location := { world := m.location.world
                         entity := s.ctr } }] }) m)
      = propIds m ++ [s.ctr] := by
    simp [propIds]
  have hsrcnodup : (propIds m).Nodup := by
    apply nodup_of_mem_flat hP
    exact hmmem
  have hfresh : s.ctr ∉ propIds m := by
    intro hc
    obtain ⟨q, hq, hqid⟩ := List.mem_map.mp hc
    have h2 := (hU m hmmem).2 q hq
    rw [hqid] at h2
    exact lt_irrefl _ h2
  refine inv_update_core L₁ L₂ b M₁ M₂ m _
    (fun m2 => { m2 with properties := m2.properties ++
      [{ name := nm, id := s.ctr
         location := { world := m.location.world
                       entity := s.ctr } }] })
    (s.ctr + 1) hsb hse hw hinv
    (Nat.le_succ _) ?_ ?_ ?_ ?_ ?_ ?_ ?_
  · rfl
  · rfl
  · -- new property ids are below the bumped counter
    intro q hq
    rcases List.mem_append.mp hq with hq | hq
    · exact Nat.lt_succ_of_lt ((hU m hmmem).2 q hq)
    · have hq' : q.id = s.ctr := by
        have : q = { name := nm, id := s.ctr
                     location := { world := m.location.world
                                   entity := s.ctr } } := by
          simpa using hq
        rw [this]
      rw [hq']
      exact Nat.lt_succ_self _
  · -- other registry records are untouched
    intro u hu
    have hune : u ≠ entity := by
      rw [← hmid]
      exact hu
    exact lookupA_modifyA_ne _ _ hune
  · -- the new backing record matches the new mirror
    refine ⟨{ ent0 with location := ent0.location ++ [(E.index v, s.ctr)] },
      ?_, ?_⟩
    · show lookupA m.id (modifyA entity
        (fun e => { e with location := e.location ++ [(E.index v, s.ctr)] })
        w0.entities) = _
      rw [hmid, lookupA_modifyA_self, hent]
      rfl
    · intro u
      show u ∈ (ent0.location ++ [(E.index v, s.ctr)]).map Prod.snd
        ↔ u ∈ (m.properties ++
          [({ name := nm, id := s.ctr
              location := { world := m.location.world
                            entity := s.ctr } } :
            StarEntityProperty)]).map StarEntityProperty.id
      have hbase := hsame0 u
      simp only [List.map_append, List.mem_append]
      constructor
      · rintro (h' | h')
        · exact Or.inl (hbase.mp h')
        · right
          simpa using h'
      · rintro (h' | h')
        · exact Or.inl (hbase.mpr h')
        · right
          simpa using h'
  · -- the new mirror's property ids are duplicate-free
    rw [hprops]
    apply List.Nodup.append hsrcnodup (List.nodup_singleton _)
    intro a ha hb
    have : a = s.ctr := by simpa using hb
    subst this
    exact hfresh ha
  · -- each new id is an old one or fresh
    intro u hu
    rw [hprops] at hu
    rcases List.mem_append.mp hu with hu | hu
    · exact Or.inl hu
    · right
      have : u = s.ctr := by simpa using hu
      subst this
      intro hc
      exact lt_irrefl _ (pid_lt_of_mem_flat hU hc)

/-- A successful `set_property` that targets a property id already on the
addressed mirror preserves the invariant. -/
theorem inv_setProp {T : Type} (E : EnumInfo T) (s : SS T)
    (B entity p : Uid) (v : T) (nm : String) (s' : SS T) (r : Uid)
    (hmem : ∃ bb m2, SS.findBeing s B = some bb
      ∧ bb.entities.find? (fun m => m.id == entity) = some m2
      ∧ p ∈ m2.properties.map StarEntityProperty.id)
    (hok : SS.set_property E s B entity p v nm = some (s', r))
    (h : SSInv s) : SSInv s' := by
  have hinv := h
  obtain ⟨hU, hW, hD, hP, hM⟩ := h
  rcases hfb : SS.findBeing s B with _ | b
  · simp [SS.set_property, hfb] at hok
  rcases hfm : b.entities.find? (fun e => e.id == entity) with _ | m
  · simp [SS.set_property, hfb, hfm] at hok
  rcases hw : lookupA m.location.world s.worlds with _ | w
  · simp [SS.set_property, hfb, hfm, hw] at hok
  rcases hg : w.components[E.index v]? with _ | tbl
  · simp [SS.set_property, hfb, hfm, hw,
      World.set_component_to_entity, hg] at hok
  rcases hent : lookupA entity w.entities with _ | ent
  · simp [SS.set_property, hfb, hfm, hw,
      World.set_component_to_entity, hg, hent] at hok
  simp only [SS.set_property, hfb, hfm, hw, World.set_component_to_entity,
    List.get?_eq_getElem?, hg, hent, Option.some.injEq,
    Prod.mk.injEq] at hok
  obtain ⟨hs', hr⟩ := hok
  subst hs'
  -- the targeted id is on the addressed mirror
  obtain ⟨bb, m2, hbb, hm2, hp⟩ := hmem
  rw [hfb] at hbb
  obtain rfl : b = bb := Option.some.inj hbb
  rw [hfm] at hm2
  obtain rfl : m = m2 := Option.some.inj hm2
  -- access the addressed mirror and its backing record
  have hmid : m.id = entity := by
    have := List.find?_some hfm
    simpa using this
  have hmmem : m ∈ mirrors s := by
    have hbmem : b ∈ s.beings := List.mem_of_find?_eq_some hfb
    have hmem' : m ∈ b.entities := List.mem_of_find?_eq_some hfm
    exact List.mem_flatMap.mpr ⟨b, hbmem, hmem'⟩
  obtain ⟨w0, ent0, hw0, hent0, hsame0⟩ := hM m hmmem
  have hw0w : w0 = w := by
    rw [hw0] at hw
    exact Option.some.inj hw
  subst hw0w
  have hent0e : ent0 = ent := by
    rw [hmid] at hent0
    rw [hent0] at hent
    exact Option.some.inj hent
  subst hent0e
  -- the rename keeps every property id in place
  have hpe : (modifyFirst (fun q => q.id == p)
      (fun q => { q with name := nm }) m.properties).map
        StarEntityProperty.id
      = m.properties.map StarEntityProperty.id := by
    apply map_modifyFirst_eq
    intro a
    rfl
  -- decompose the two-level mirror update
  obtain ⟨L₁, L₂, M₁, M₂, hsb, hse, hl₁, hpb, hm₁, hpm, hbeq⟩ :=
    beings_update_decomp s B entity
      (fun m2 => { m2 with properties := modifyFirst (fun q => q.id == p) (fun q => { q with name := nm }) m2.properties })
      hfb hfm
  rw [hbeq]
  refine inv_update_core L₁ L₂ b M₁ M₂ m _
    (fun m2 => { m2 with properties := modifyFirst (fun q => q.id == p) (fun q => { q with name := nm }) m2.properties })
    s.ctr hsb hse hw hinv (le_refl _) ?_ ?_ ?_ ?_ ?_ ?_ ?_
  · rfl
  · rfl
  · -- renamed property ids keep their bound
    intro q hq
    rcases mem_of_mem_modifyFirst hq with hq | ⟨a, ha, -, rfl⟩
    · exact (hU m hmmem).2 q hq
    · exact (hU m hmmem).2 a ha
  · -- other registry records are untouched
    intro u hu
    have hune : u ≠ entity := by
      rw [← hmid]
      exact hu
    exact lookupA_modifyA_ne _ _ hune
  · -- the appended location pair carries an id already present
    refine ⟨{ ent0 with location := ent0.location ++ [(E.index v, p)] },
      ?_, ?_⟩
    · show lookupA m.id (modifyA entity
        (fun e => { e with location := e.location ++ [(E.index v, p)] })
        w0.entities) = _
      rw [hmid, lookupA_modifyA_self, hent]
      rfl
    · intro u
      show u ∈ (ent0.location ++ [(E.index v, p)]).map Prod.snd
        ↔ u ∈ (modifyFirst (fun q => q.id == p)
          (fun q => { q with name := nm }) m.properties).map
            StarEntityProperty.id
      rw [hpe]
      have hbase := hsame0 u
      simp only [List.map_append, List.mem_append]
      constructor
      · rintro (h' | h')
        · exact hbase.mp h'
        · have : u = p := by simpa using h'
          subst this
          exact hp
      · intro h'
        exact Or.inl (hbase.mpr h')
  · -- property ids stay duplicate-free on the mirror
    show ((modifyFirst (fun q => q.id == p)
      (fun q => { q with name := nm }) m.properties).map
        StarEntityProperty.id).Nodup
    rw [hpe]
    exact nodup_of_mem_flat hP hmmem
  · -- no property id changes
    intro u hu
    left
    show u ∈ m.properties.map StarEntityProperty.id
    rw [← hpe]
    exact hu

/-- Roots with no matching mirror pass through the `remove_property` scan
unchanged. -/
theorem removePropGo_append_nomatch {T : Type} (p : Uid) (L : List Being)
    (hL : ∀ x ∈ L, x.entities.find?
      (fun m => m.properties.any (fun q => q.id == p)) = none) :
    ∀ (rest : List Being) (ws : List (Uid × World T)) (c : Nat),
      SS.removePropGo p (L ++ rest) ws c
        = (SS.removePropGo p rest ws c).map (fun r => (L ++ r.1, r.2)) := by
  induction L with
  | nil =>
    intro rest ws c
    rcases hx : SS.removePropGo p rest ws c with _ | r <;> simp [hx]
  | cons b t ih =>
    intro rest ws c
    have hb := hL b (List.mem_cons_self _ _)
    rw [List.cons_append]
    simp only [SS.removePropGo, hb,
      ih (fun x hx => hL x (List.mem_cons_of_mem _ hx)) rest ws c]
    rcases hx : SS.removePropGo p rest ws c with _ | r <;> simp [hx]

/-- A successful `remove_property` preserves the invariant. -/
theorem inv_removeProp {T : Type} (s : SS T) (p : Uid) (s' : SS T)
    (hok : SS.remove_property s p = some s')
    (h : SSInv s) : SSInv s' := by
  have hinv := h
  obtain ⟨hU, hW, hD, hP, hM⟩ := h
  rcases hglob : s.beings.find? (fun b2 => (b2.entities.find?
      (fun m2 => m2.properties.any (fun q => q.id == p))).isSome) with _ | b
  · -- no root holds the id: the scan is the identity
    have hall : ∀ x ∈ s.beings, ∀ m ∈ x.entities, ∀ q ∈ m.properties,
        q.id ≠ p := by
      intro x hx m hm q hq hqp
      have h1 := List.find?_eq_none.mp hglob x hx
      apply h1
      have hq2 : (q.id == p) = true := by
        rw [hqp]
        exact beq_self_eq_true p
      have hq3 : (fun m2 => m2.properties.any (fun q2 => q2.id == p)) m
          = true := List.any_eq_true.mpr ⟨q, hq, hq2⟩
      obtain ⟨mb, hmb⟩ : ∃ mb, x.entities.find?
          (fun m2 => m2.properties.any (fun q2 => q2.id == p)) = some mb :=
        find?_isSome_of_mem hm hq3
      rw [hmb]
      rfl
    simp only [SS.remove_property,
      removePropGo_no_match p s.beings s.worlds s.ctr hall,
      Option.some.injEq] at hok
    subst hok
    exact hinv
  · -- the first matching root
    have hbP := List.find?_some hglob
    rcases hfm : b.entities.find?
        (fun m2 => m2.properties.any (fun q => q.id == p)) with _ | m
    · rw [hfm] at hbP
      simp at hbP
    obtain ⟨L₁, L₂, hsb, hl₁, -, -⟩ := find?_modifyFirst_split hglob id
    have hL₁f : ∀ x ∈ L₁, x.entities.find?
        (fun m2 => m2.properties.any (fun q => q.id == p)) = none := by
      intro x hx
      have hfalse := hl₁ x hx
      rcases hfx : x.entities.find?
          (fun m2 => m2.properties.any (fun q => q.id == p)) with _ | mm
      · exact hfx
      · rw [hfx] at hfalse
        simp at hfalse
    have hbmem : b ∈ s.beings := List.mem_of_find?_eq_some hglob
    have hmb : m ∈ b.entities := List.mem_of_find?_eq_some hfm
    have hmmem : m ∈ mirrors s :=
      List.mem_flatMap.mpr ⟨b, hbmem, hmb⟩
    have hpm : p ∈ m.properties.map StarEntityProperty.id := by
      have := List.find?_some hfm
      obtain ⟨q, hq, hqp⟩ := List.any_eq_true.mp this
      exact List.mem_map.mpr ⟨q, hq, by simpa using hqp⟩
    obtain ⟨w, ent, hw, hent, hsame⟩ := hM m hmmem
    -- the remaining roots cannot hold the id either
    have hPs : (((L₁.flatMap Being.entities).flatMap propIds
        ++ b.entities.flatMap propIds)
        ++ (L₂.flatMap Being.entities).flatMap propIds).Nodup := by
      have h0 := hP
      rw [mirrors, hsb] at h0
      simpa [List.append_assoc] using h0
    have hall₂ : ∀ x ∈ L₂, ∀ m2 ∈ x.entities, ∀ q ∈ m2.properties,
        q.id ≠ p := by
      intro x hx m2 hm2 q hq hqp
      have hpB : p ∈ b.entities.flatMap propIds :=
        List.mem_flatMap.mpr ⟨m, hmb, hpm⟩
      have hpC : p ∈ (L₂.flatMap Being.entities).flatMap propIds :=
        List.mem_flatMap.mpr ⟨m2, List.mem_flatMap.mpr ⟨x, hx, hm2⟩,
          List.mem_map.mpr ⟨q, hq, hqp⟩⟩
      exact not_mem_right_of_nodup_triple hPs hpB hpC
    -- unfold the scan to the single matching root
    rcases hrc : World.remove_component_from_entity w s.ctr m.id p
        with _ | w'
    · simp only [SS.remove_property] at hok
      rw [hsb, removePropGo_append_nomatch p L₁ hL₁f (b :: L₂)
        s.worlds s.ctr] at hok
      simp [SS.removePropGo, hfm, hw, hrc] at hok
    · -- characterize the rewritten world
      have hw'ents : w'.entities = modifyA m.id
          (fun e => { e with
            location := e.location.filter (fun pr => pr.2 ≠ p) })
          w.entities := by
        rcases hscan : World.findTable w.components p with _ | j
        · simp only [World.remove_component_from_entity, hscan,
            Option.getD_none, List.get?_eq_getElem?, lookupA_modifyA_self,
            hent, Option.map_some'] at hrc
          rcases hgt : w.components[0]? with _ | tbl0
          · simp only [hgt] at hrc
            exact absurd hrc (by simp)
          · simp only [hgt] at hrc
            rcases hcond : (ent.location.filter
                (fun pr => pr.2 ≠ p)).any (fun pr => pr.2 = s.ctr) with _ | _
            · rw [hcond, if_neg (by simp)] at hrc
              obtain rfl := Option.some.inj hrc
              rfl
            · rw [hcond] at hrc
              simp at hrc
        · simp only [World.remove_component_from_entity, hscan,
            Option.getD_some, List.get?_eq_getElem?, lookupA_modifyA_self,
            hent, Option.map_some'] at hrc
          rcases hgt : w.components[j]? with _ | tblj
          · simp only [hgt] at hrc
            exact absurd hrc (by simp)
          · simp only [hgt] at hrc
            rcases hcond : (ent.location.filter
                (fun pr => pr.2 ≠ p)).any (fun pr => pr.2 = p) with _ | _
            · rw [hcond, if_neg (by simp)] at hrc
              obtain rfl := Option.some.inj hrc
              rfl
            · rw [hcond] at hrc
              simp at hrc
      -- reduce the scan
      simp only [SS.remove_property] at hok
      rw [hsb, removePropGo_append_nomatch p L₁ hL₁f (b :: L₂)
        s.worlds s.ctr] at hok
      simp only [SS.removePropGo, hfm, hw, hrc,
        removePropGo_no_match p L₂ (insertA m.location.world w' s.worlds)
          (s.ctr + 1) hall₂,
        Option.map_some', Option.some.injEq] at hok
      subst hok
      -- decompose the root's mirror list at the first match
      obtain ⟨M₁, M₂, hse, hm₁, -, hmode⟩ := find?_modifyFirst_split hfm
        (fun m2 => { m2 with properties := m2.properties.filter (fun q => q.id ≠ p) })
      rw [hmode]
      refine inv_update_core L₁ L₂ b M₁ M₂ m w'
        (fun m2 => { m2 with properties := m2.properties.filter (fun q => q.id ≠ p) })
        (s.ctr + 1) hsb hse hw hinv (Nat.le_succ _) ?_ ?_ ?_ ?_ ?_ ?_ ?_
      · rfl
      · rfl
      · -- filtered property ids keep their bound
        intro q hq
        have hq' := List.mem_of_mem_filter hq
        exact Nat.lt_succ_of_lt ((hU m hmmem).2 q hq')
      · -- other registry records are untouched
        intro u hu
        rw [hw'ents]
        exact lookupA_modifyA_ne _ _ hu
      · -- the filtered record matches the filtered mirror
        refine ⟨{ ent with
          location := ent.location.filter (fun pr => pr.2 ≠ p) }, ?_, ?_⟩
        · rw [hw'ents, lookupA_modifyA_self, hent]
          rfl
        · intro u
          show u ∈ (ent.location.filter (fun pr => pr.2 ≠ p)).map Prod.snd
            ↔ u ∈ (m.properties.filter (fun q => q.id ≠ p)).map
              StarEntityProperty.id
          rw [mem_map_filter_ne, mem_map_filter_ne, hsame u]
      · -- filtering preserves distinctness
        show ((m.properties.filter (fun q => q.id ≠ p)).map
          StarEntityProperty.id).Nodup
        have hsubl : (m.properties.filter (fun q => q.id ≠ p)).Sublist
            m.properties := List.filter_sublist _
        exact (hsubl.map StarEntityProperty.id).nodup
          (nodup_of_mem_flat hP hmmem)
      · -- every surviving id was already on the mirror
        intro u hu
        left
        obtain ⟨q, hq, rfl⟩ := List.mem_map.mp hu
        exact List.mem_map.mpr ⟨q, List.mem_of_mem_filter hq, rfl⟩

theorem nodup_triple_disjoint {X Y Z : List Uid}
    (h : (X ++ Y ++ Z).Nodup) :
    (∀ u ∈ X, u ∉ Y) ∧ (∀ u ∈ X, u ∉ Z) ∧ ∀ u ∈ Y, u ∉ Z := by
  rw [List.nodup_append] at h
  obtain ⟨hXY, hZ, hdisj⟩ := h
  rw [List.nodup_append] at hXY
  obtain ⟨hX, hY, hXYd⟩ := hXY
  exact ⟨hXYd, fun u hu => hdisj (List.mem_append.mpr (Or.inl hu)),
    fun u hu => hdisj (List.mem_append.mpr (Or.inr hu))⟩

/-- The lazy-partition preamble preserves the invariant: when the world
map is empty no mirror can be backed, so none exists. -/
theorem inv_ensureWorld {T : Type} (E : EnumInfo T) (s : SS T)
    (h : SSInv s) : SSInv (SS.ensureWorld E s) := by
  obtain ⟨hU, hW, hD, hP, hM⟩ := h
  rw [SS.ensureWorld]
  by_cases he : s.worlds.isEmpty
  · rw [if_pos he]
    rw [List.isEmpty_iff] at he
    have hnom : ∀ m ∈ mirrors s, False := by
      intro m hm
      obtain ⟨w, ent, hw, -, -⟩ := hM m hm
      rw [he] at hw
      exact absurd hw (by simp [lookupA])
    have hmir : mirrors (SS.create_world E s).1 = mirrors s := by
      simp [mirrors, SS.create_world]
    refine ⟨?_, ?_, ?_, ?_, ?_⟩
    · intro m hm
      rw [hmir] at hm
      exact absurd hm (fun hm => hnom m hm)
    · show (((SS.create_world E s).1).worlds.map Prod.fst).Nodup
      show ((insertA s.ctr (World.new T s.ctr E.vc) s.worlds).map
        Prod.fst).Nodup
      rw [he]
      simp [insertA]
    · show (((mirrors (SS.create_world E s).1)).map StarEntity.id).Nodup
      rw [hmir]
      exact hD
    · show ((mirrors (SS.create_world E s).1).flatMap propIds).Nodup
      rw [hmir]
      exact hP
    · intro m hm
      rw [hmir] at hm
      exact absurd hm (fun hm => hnom m hm)
  · rw [if_neg he]
    exact ⟨hU, hW, hD, hP, hM⟩

/-- The detach-on-name-collision phase of `constitute_being` preserves the
invariant: the detached mirror's entity is removed from its world, and
every same-named mirror is dropped from the root. -/
theorem inv_detach {T : Type} (s : SS T) (being : Uid) (nm : String)
    (s2 : SS T) (hok : SS.detachSameName s being nm = some s2)
    (h : SSInv s) : SSInv s2 := by
  have hinv := h
  obtain ⟨hU, hW, hD, hP, hM⟩ := h
  rcases hfb : SS.findBeing s being with _ | b
  · simp only [SS.detachSameName, hfb, Option.some.injEq] at hok
    subst hok
    exact hinv
  obtain ⟨L₁, L₂, hsb, hl₁, hpb, hmod⟩ := find?_modifyFirst_split hfb
    (fun b' => { b' with
      entities := b'.entities.filter (fun e => e.name ≠ nm) })
  rcases hfe : b.entities.find? (fun e => e.name == nm) with _ | e
  · -- no mirror carries the name: the state is unchanged
    simp only [SS.detachSameName, hfb, hfe, Option.map_some',
      Option.some.injEq] at hok
    subst hok
    have hfilter : b.entities.filter (fun e => e.name ≠ nm)
        = b.entities := by
      apply filter_eq_self_of_forall
      intro x hx
      have hx2 := List.find?_eq_none.mp hfe x hx
      simpa using hx2
    have hbeta : ({ b with
        entities := b.entities.filter (fun e => e.name ≠ nm) }) = b := by
      rw [hfilter]
    rw [hmod, hbeta, ← hsb]
    exact hinv
  · -- a same-named mirror exists: its entity is removed, and it is dropped
    have hemem : e ∈ mirrors s :=
      List.mem_flatMap.mpr ⟨b, List.mem_of_find?_eq_some hfb,
        List.mem_of_find?_eq_some hfe⟩
    have hename : e.name = nm := by
      have := List.find?_some hfe
      simpa using this
    obtain ⟨w0, ent0, hw0, hent0, hsame0⟩ := hM e hemem
    simp only [SS.detachSameName, hfb, hfe, hw0, World.remove_entity,
      hent0] at hok
    rcases hrl : World.removeLocs ent0.location w0.components
        with _ | comps
    · simp [hrl] at hok
    by_cases hzero : w0.entitiesCount = 0
    · simp [hrl, if_pos hzero] at hok
    simp only [hrl, if_neg hzero, Option.map_some',
      Option.some.injEq] at hok
    subst hok
    rw [hmod]
    -- membership structure of the surviving mirrors
    have hm_old : mirrors s
        = L₁.flatMap Being.entities ++ b.entities
          ++ L₂.flatMap Being.entities := by
      rw [mirrors, hsb]
      simp
    set w1 : World T := { w0 with components := comps, entities := w0.entities.filter (fun pr => pr.1 ≠ e.id), entitiesCount := w0.entitiesCount - 1 } with hw1def
    have hm_new : mirrors ({ worlds := insertA e.location.world w1 s.worlds
                             beings := L₁ ++ ({ b with entities := b.entities.filter (fun e2 => e2.name ≠ nm) }) :: L₂
                             ctr := s.ctr } : SS T)
        = L₁.flatMap Being.entities
          ++ b.entities.filter (fun e2 => e2.name ≠ nm)
          ++ L₂.flatMap Being.entities :=
      mirrors_decomp _ L₁ L₂ b s.ctr _
    have hsubm : (L₁.flatMap Being.entities
        ++ b.entities.filter (fun e2 => e2.name ≠ nm)
        ++ L₂.flatMap Being.entities).Sublist (mirrors s) := by
      rw [hm_old]
      exact ((List.Sublist.refl _).append
        (List.filter_sublist _)).append (List.Sublist.refl _)
    have hdj := nodup_triple_disjoint (by
      have h0 := hD
      rw [hm_old] at h0
      simpa [List.append_assoc] using h0)
    have heidB : e.id ∈ b.entities.map StarEntity.id :=
      List.mem_map_of_mem _ (List.mem_of_find?_eq_some hfe)
    have hBnodup : (b.entities.map StarEntity.id).Nodup := by
      have h0 := hD
      rw [hm_old] at h0
      simp only [List.map_append] at h0
      rw [List.append_assoc, List.nodup_append] at h0
      obtain ⟨-, h1, -⟩ := h0
      rw [List.nodup_append] at h1
      exact h1.1
    have hidne : ∀ m' : StarEntity,
        (m' ∈ L₁.flatMap Being.entities
          ∨ m' ∈ b.entities.filter (fun e2 => e2.name ≠ nm)
          ∨ m' ∈ L₂.flatMap Being.entities) → m'.id ≠ e.id := by
      intro m' hm' hc
      rcases hm' with h' | h' | h'
      · exact hdj.1 e.id (by rw [← hc]; exact List.mem_map_of_mem _ h')
          heidB
      · obtain ⟨hmb', hname'⟩ := List.mem_filter.mp h'
        have hm'e : m' = e := List.inj_on_of_nodup_map hBnodup hmb'
          (List.mem_of_find?_eq_some hfe) hc
        rw [hm'e] at hname'
        rw [hename] at hname'
        simp at hname'
      · exact hdj.2.2 e.id heidB (by rw [← hc]
                                     exact List.mem_map_of_mem _ h')
    have hmemsplit : ∀ m' : StarEntity,
        m' ∈ L₁.flatMap Being.entities
          ++ b.entities.filter (fun e2 => e2.name ≠ nm)
          ++ L₂.flatMap Being.entities →
        m' ∈ mirrors s ∧ m'.id ≠ e.id := by
      intro m' hm'
      simp only [List.mem_append, or_assoc] at hm'
      rcases hm' with h' | h' | h'
      · refine ⟨?_, hidne m' (Or.inl h')⟩
        rw [hm_old]
        simp only [List.mem_append]
        exact Or.inl (Or.inl h')
      · refine ⟨?_, hidne m' (Or.inr (Or.inl h'))⟩
        rw [hm_old]
        simp only [List.mem_append]
        exact Or.inl (Or.inr (List.mem_of_mem_filter h'))
      · refine ⟨?_, hidne m' (Or.inr (Or.inr h'))⟩
        rw [hm_old]
        simp only [List.mem_append]
        exact Or.inr h'
    refine ⟨?_, ?_, ?_, ?_, ?_⟩
    · intro m' hm'
      rw [hm_new] at hm'
      exact hU m' (hmemsplit m' hm').1
    · show ((insertA e.location.world _ s.worlds).map Prod.fst).Nodup
      have hkmem : e.location.world ∈ s.worlds.map Prod.fst := by
        rw [← lookupA_isSome_iff]
        simp [hw0]
      rw [keys_insertA, if_pos hkmem]
      exact hW
    · show ((mirrors _).map StarEntity.id).Nodup
      rw [hm_new]
      exact ((hsubm).map StarEntity.id).nodup hD
    · show ((mirrors _).flatMap propIds).Nodup
      rw [hm_new]
      exact (sublist_flatMap_mono hsubm propIds).nodup hP
    · intro m' hm'
      rw [hm_new] at hm'
      obtain ⟨hms, hne⟩ := hmemsplit m' hm'
      obtain ⟨wm, entm, hwm, hentm, hsm⟩ := hM m' hms
      by_cases hkey : m'.location.world = e.location.world
      · have hwmw0 : wm = w0 := by
          rw [hkey] at hwm
          rw [hwm] at hw0
          exact Option.some.inj hw0
        subst hwmw0
        refine ⟨w1, entm, ?_, ?_, hsm⟩
        · show lookupA m'.location.world
            (insertA e.location.world w1 s.worlds) = some w1
          rw [hkey]
          exact lookupA_insertA_self _ _ _
        · show lookupA m'.id w1.entities = some entm
          rw [hw1def]
          show lookupA m'.id
            (wm.entities.filter (fun pr => pr.1 ≠ e.id)) = some entm
          rw [lookupA_filter_key_ne hne]
          exact hentm
      · refine ⟨wm, entm, ?_, hentm, hsm⟩
        show lookupA m'.location.world
          (insertA e.location.world _ s.worlds) = some wm
        rw [lookupA_insertA_ne _ s.worlds hkey]
        exact hwm

/-- The create-and-append phase of `constitute_being` preserves the
invariant: a fresh entity is registered in an existing world, and a new
empty mirror is appended to the root (or nowhere, when the root id is
unknown). -/
theorem inv_push {T : Type} {s2 : SS T} (inv : SSInv s2) (being wid : Uid)
    (w : World T) (hmem : (wid, w) ∈ s2.worlds) (nm : String) :
    SSInv { worlds := insertA wid ({ w with entities := insertA s2.ctr { location := [], name := nm } w.entities, entitiesCount := w.entitiesCount + 1 }) s2.worlds
            beings := SS.pushMirror being { location := { world := wid, entity := s2.ctr }, id := s2.ctr, name := nm, properties := [] } s2.beings
            ctr := s2.ctr + 1 } := by
  obtain ⟨hU, hW, hD, hP, hM⟩ := inv
  have hkeyw : lookupA wid s2.worlds = some w := lookupA_of_mem_nodup hW hmem
  have hkmem : wid ∈ s2.worlds.map Prod.fst := by
    rw [← lookupA_isSome_iff]
    simp [hkeyw]
  have hWnew : ((insertA wid ({ w with entities := insertA s2.ctr { location := [], name := nm } w.entities, entitiesCount := w.entitiesCount + 1 }) s2.worlds).map Prod.fst).Nodup := by
    rw [keys_insertA, if_pos hkmem]
    exact hW
  have hMold : ∀ m' ∈ mirrors s2, m'.id ≠ s2.ctr →
      ∃ wm ent, lookupA m'.location.world
          (insertA wid ({ w with entities := insertA s2.ctr { location := [], name := nm } w.entities, entitiesCount := w.entitiesCount + 1 }) s2.worlds) = some wm
        ∧ lookupA m'.id wm.entities = some ent
        ∧ sameIds ent.location m'.properties := by
    intro m' hms hne
    obtain ⟨wm, entm, hwm, hentm, hsm⟩ := hM m' hms
    by_cases hkey : m'.location.world = wid
    · have hwmw : wm = w := by
        rw [hkey, hkeyw] at hwm
        exact (Option.some.inj hwm).symm
      subst hwmw
      refine ⟨{ wm with entities := insertA s2.ctr { location := [], name := nm } wm.entities, entitiesCount := wm.entitiesCount + 1 }, entm, ?_, ?_, hsm⟩
      · rw [hkey]
        exact lookupA_insertA_self _ _ _
      · show lookupA m'.id
          (insertA s2.ctr { location := [], name := nm } wm.entities)
          = some entm
        rw [lookupA_insertA_ne _ _ hne]
        exact hentm
    · refine ⟨wm, entm, ?_, hentm, hsm⟩
      rw [lookupA_insertA_ne _ _ hkey]
      exact hwm
  rcases hfb : s2.beings.find? (fun b2 => b2.id == being) with _ | b
  · -- unknown root: no mirror is appended
    have hpush : SS.pushMirror being
        { location := { world := wid, entity := s2.ctr }
          id := s2.ctr, name := nm, properties := [] } s2.beings
        = s2.beings := by
      apply modifyFirst_of_forall_not
      intro x hx
      have hx2 := List.find?_eq_none.mp hfb x hx
      simpa using hx2
    rw [hpush]
    have hmir : mirrors ({ worlds := insertA wid ({ w with entities := insertA s2.ctr { location := [], name := nm } w.entities, entitiesCount := w.entitiesCount + 1 }) s2.worlds
                           beings := s2.beings
                           ctr := s2.ctr + 1 } : SS T) = mirrors s2 := by
      simp [mirrors]
    refine ⟨?_, hWnew, ?_, ?_, ?_⟩
    · intro m' hm'
      rw [hmir] at hm'
      obtain ⟨h1, h2⟩ := hU m' hm'
      exact ⟨Nat.lt_succ_of_lt h1, fun q hq => Nat.lt_succ_of_lt (h2 q hq)⟩
    · rw [hmir]
      exact hD
    · rw [hmir]
      exact hP
    · intro m' hm'
      rw [hmir] at hm'
      have hne : m'.id ≠ s2.ctr := by
        have := (hU m' hm').1
        intro hc
        rw [hc] at this
        exact lt_irrefl _ this
      exact hMold m' hm' hne
  · -- known root: the empty mirror is appended to it
    obtain ⟨L₁, L₂, hsb, hl₁, hpb, hmod⟩ := find?_modifyFirst_split hfb
      (fun b2 => { b2 with entities := b2.entities ++
        [{ location := { world := wid, entity := s2.ctr }
           id := s2.ctr, name := nm, properties := [] }] })
    show SSInv { worlds := _
                 beings := modifyFirst (fun b2 => b2.id == being) _ s2.beings
                 ctr := s2.ctr + 1 }
    rw [hmod]
    have hm_old : mirrors s2
        = L₁.flatMap Being.entities ++ b.entities
          ++ L₂.flatMap Being.entities := by
      rw [mirrors, hsb]
      simp
    have hm_new : mirrors ({ worlds := insertA wid ({ w with entities := insertA s2.ctr { location := [], name := nm } w.entities, entitiesCount := w.entitiesCount + 1 }) s2.worlds
                             beings := L₁ ++ ({ b with entities := b.entities ++ [{ location := { world := wid, entity := s2.ctr }, id := s2.ctr, name := nm, properties := [] }] }) :: L₂
                             ctr := s2.ctr + 1 } : SS T)
        = L₁.flatMap Being.entities
          ++ (b.entities ++ [{ location := { world := wid, entity := s2.ctr }
                               id := s2.ctr, name := nm, properties := [] }])
          ++ L₂.flatMap Being.entities :=
      mirrors_decomp _ L₁ L₂ b (s2.ctr + 1) _
    have hmemsplit : ∀ m' : StarEntity,
        m' ∈ L₁.flatMap Being.entities
          ++ (b.entities ++ [{ location := { world := wid, entity := s2.ctr }
                               id := s2.ctr, name := nm, properties := [] }])
          ++ L₂.flatMap Being.entities →
        m' = { location := { world := wid, entity := s2.ctr }
               id := s2.ctr, name := nm, properties := [] }
          ∨ m' ∈ mirrors s2 := by
      intro m' hm'
      simp only [List.mem_append, List.mem_cons, or_assoc] at hm'
      rcases hm' with h' | h' | h' | h' | h'
      · right
        rw [hm_old]
        simp only [List.mem_append]
        exact Or.inl (Or.inl h')
      · right
        rw [hm_old]
        simp only [List.mem_append]
        exact Or.inl (Or.inr h')
      · exact Or.inl h'
      · exact absurd h' (by simp)
      · right
        rw [hm_old]
        simp only [List.mem_append]
        exact Or.inr h'
    refine ⟨?_, hWnew, ?_, ?_, ?_⟩
    · intro m' hm'
      rw [hm_new] at hm'
      rcases hmemsplit m' hm' with rfl | hms
      · exact ⟨Nat.lt_succ_self _, by simp⟩
      · obtain ⟨h1, h2⟩ := hU m' hms
        exact ⟨Nat.lt_succ_of_lt h1, fun q hq => Nat.lt_succ_of_lt (h2 q hq)⟩
    · show ((mirrors _).map StarEntity.id).Nodup
      rw [hm_new]
      have hOld : ((L₁.flatMap Being.entities).map StarEntity.id
          ++ b.entities.map StarEntity.id
          ++ (L₂.flatMap Being.entities).map StarEntity.id).Nodup := by
        have h0 := hD
        rw [hm_old] at h0
        simpa [List.append_assoc] using h0
      have hcf : s2.ctr ∉ (L₁.flatMap Being.entities).map StarEntity.id
          ++ b.entities.map StarEntity.id
          ++ (L₂.flatMap Being.entities).map StarEntity.id := by
        intro hc
        have hc2 : s2.ctr ∈ (mirrors s2).map StarEntity.id := by
          rw [hm_old]
          simpa [List.append_assoc] using hc
        obtain ⟨m', hm', hid⟩ := List.mem_map.mp hc2
        have := (hU m' hm').1
        rw [hid] at this
        exact lt_irrefl _ this
      have := nodup_middle_snoc hOld hcf
      simpa [List.append_assoc] using this
    · show ((mirrors _).flatMap propIds).Nodup
      rw [hm_new]
      have heq : (L₁.flatMap Being.entities
          ++ (b.entities ++ [({ location := { world := wid, entity := s2.ctr }
                                id := s2.ctr, name := nm, properties := [] } :
                              StarEntity)])
          ++ L₂.flatMap Being.entities).flatMap propIds
          = (mirrors s2).flatMap propIds := by
        rw [hm_old]
        simp [propIds, List.append_assoc]
      rw [heq]
      exact hP
    · intro m' hm'
      rw [hm_new] at hm'
      rcases hmemsplit m' hm' with rfl | hms
      · refine ⟨{ w with entities := insertA s2.ctr { location := [], name := nm } w.entities, entitiesCount := w.entitiesCount + 1 }, { location := [], name := nm }, ?_, ?_, ?_⟩
        · exact lookupA_insertA_self _ _ _
        · show lookupA s2.ctr
            (insertA s2.ctr { location := [], name := nm } w.entities)
            = some _
          exact lookupA_insertA_self _ _ _
        · intro u
          simp
      · have hne : m'.id ≠ s2.ctr := by
          have := (hU m' hms).1
          intro hc
          rw [hc] at this
          exact lt_irrefl _ this
        exact hMold m' hms hne

/-- A successful `constitute_being` preserves the invariant. -/
theorem inv_constitute {T : Type} (E : EnumInfo T) (s : SS T)
    (being : Uid) (nm : String) (choice : Nat) (s' : SS T) (r : Uid)
    (hok : SS.constitute_being E s being nm choice = some (s', r))
    (h : SSInv s) : SSInv s' := by
  have h1 : SSInv (SS.ensureWorld E s) := inv_ensureWorld E s h
  rcases hd : SS.detachSameName (SS.ensureWorld E s) being nm with _ | s2
  · simp [SS.constitute_being, hd] at hok
  have h2 : SSInv s2 := inv_detach _ being nm s2 hd h1
  rcases hgp : s2.worlds[choice % s2.worlds.length]? with _ | pr
  · simp [SS.constitute_being, hd, List.get?_eq_getElem?, hgp] at hok
  obtain ⟨wid, w⟩ := pr
  simp only [SS.constitute_being, hd, List.get?_eq_getElem?, hgp,
    World.create_entity, Option.some.injEq, Prod.mk.injEq] at hok
  obtain ⟨hs', -⟩ := hok
  subst hs'
  have hmem : (wid, w) ∈ s2.worlds := List.getElem?_mem hgp
  exact inv_push h2 being wid w hmem nm

/-- Every store mutation preserves the invariant. -/
theorem inv_COp {T : Type} (E : EnumInfo T) (s s' : SS T)
    (hop : COp E s s') (h : SSInv s) : SSInv s' := by
  cases hop with
  | conceive name => exact inv_conceive s name h
  | constitute being name choice s2 r hc =>
    exact inv_constitute E s being name choice s' r hc h
  | addProp being entity v name s2 r ha =>
    exact inv_addProp E s being entity v name s' r ha h
  | setProp being entity p v name s2 r hmem hs =>
    exact inv_setProp E s being entity p v name s' r hmem hs h
  | removeProp p s2 hr => exact inv_removeProp s p s' hr h

/-- Every reachable store satisfies the invariant. -/
theorem inv_reach {T : Type} (E : EnumInfo T) (s : SS T)
    (h : ReachC E s) : SSInv s := by
  induction h with
  | refl => exact inv_new T
  | tail hstep hop ih => exact inv_COp E _ _ hop ih

/-- The root and mirror of `scenario3`, written out. -/
def B3c : Being :=
  { id := 0
    entities := [{ location := { world := 1, entity := 2 }
                   id := 2, name := "s"
                   properties := [{ name := "greeting", id := 3
                                    location := { world := 1
                                                  entity := 3 } }] }]
    name := "r" }

/-- The sub-object mirror of `scenario3`. -/
def M3c : StarEntity :=
  { location := { world := 1, entity := 2 }
    id := 2, name := "s"
    properties := [{ name := "greeting", id := 3
                     location := { world := 1, entity := 3 } }] }

/-- `scenario3` is reachable by public mutations from a fresh store. -/
theorem reachC_scenario3 : ReachC E2 scenario3 := by
  have h1 : COp E2 (SS.new Edif) scenario1 := COp.conceive (SS.new Edif) "r"
  have h2 : COp E2 scenario1 scenario2 :=
    COp.constitute scenario1 0 "s" 0 scenario2 2 (by decide)
  have h3 : COp E2 scenario2 scenario3 :=
    COp.addProp scenario2 0 2 (Edif.text "hello") "greeting" scenario3 3
      (by decide)
  exact Relation.ReflTransGen.tail
    (Relation.ReflTransGen.tail
      (Relation.ReflTransGen.tail Relation.ReflTransGen.refl h1) h2) h3

/-- C3 (corrected): after any finite sequence of `conceive_being`,
`constitute_being`, `add_property`, `set_property` (updates of a property
id already on the addressed mirror) and `remove_property` operations
starting from a fresh root store, every sub-object mirror of every root is
backed by a live registry record in the world its location names, and the
SET of property ids appearing in that record's location pairs equals the
set of property ids in the mirror's property list.  The claim's multiset
form is false: `set_property` appends the location pair again (see
`set_property_duplicates_location_pair`). -/
theorem mirror_location_id_sets_match {T : Type} (E : EnumInfo T)
    (s : SS T) (hreach : ReachC E s) :
    ∀ b ∈ s.beings, ∀ m ∈ b.entities, ∃ w ent,
      lookupA m.location.world s.worlds = some w
      ∧ lookupA m.id w.entities = some ent
      ∧ ∀ u : Uid, u ∈ ent.location.map Prod.snd
          ↔ u ∈ m.properties.map StarEntityProperty.id := by
  intro b hb m hm
  obtain ⟨-, -, -, -, hM⟩ := inv_reach E s hreach
  obtain ⟨w, ent, hw, hent, hsame⟩ := hM m (List.mem_flatMap.mpr ⟨b, hb, hm⟩)
  exact ⟨w, ent, hw, hent, hsame⟩

/-- C3 witness: the backing-record/mirror id-set equality, instantiated on
the concrete reachable store `scenario3` and its only mirror. -/
theorem mirror_location_id_sets_match_witness :
    ∃ w ent, lookupA M3c.location.world scenario3.worlds = some w
      ∧ lookupA M3c.id w.entities = some ent
      ∧ ∀ u : Uid, u ∈ ent.location.map Prod.snd
          ↔ u ∈ M3c.properties.map StarEntityProperty.id :=
  mirror_location_id_sets_match E2 scenario3 reachC_scenario3 B3c
    (by decide) M3c (by decide)

/-- C3 counterexample to the multiset form: updating the property through
`set_property` appends the location pair `(0, 3)` a second time while the
mirror still lists the single property id `3`, so the location pairs of
the backing record form a multiset strictly larger than the mirror's
property-id multiset. -/
theorem set_property_duplicates_location_pair :
    (SS.set_property E2 scenario3 0 2 3 (Edif.text "bye") "greeting2").map
      (fun r => (r.1.worlds.map
          (fun wp => wp.2.entities.map (fun e => (e.1, e.2.location))),
        r.1.beings.map (fun b => b.entities.map
          (fun m => m.properties.map StarEntityProperty.id))))
    = some ([[(2, [(0, 3), (0, 3)])]], [[[3]]]) := by rfl
